import Mathlib

/-!
# INI parser: scanner, parser and document of `ini_parser.hpp`

A shallow embedding of `src/ini_parser.hpp`.

* The input buffer is a `List Char`; every `Char` stands for one `char` (byte) of the
  C++ `string`.  A `string_view` into the buffer is modelled by the characters it covers.
  Whether plain `char` is signed is implementation-defined and matters to `skip_bom`
  only; it is the parameter `char_signed` of the constructor and of `parse_str`.
* The iterator `cur` of the scanner is modelled by the part of the buffer that starts at
  the cursor: `cur != end(source)` is `cur ≠ []`, `*cur` is the head, `++cur` the tail.
* A `std::map` is modelled by an association list; the parser and the query interface only
  look keys up, they never iterate, so the order of the entries is not observable.
* A C++ exception is the `Except` error `Fault.thrown what`, where `what` is the text of
  `runtime_error::what()`.  Dereferencing the end iterator of the section map is
  `Fault.undefined_behaviour`.
* The library functions of the coercion layer are modelled after their specification:
  `tolower` in the "C" locale, and `std::from_chars` for `int` (32 bits) in base 10.
* The two `while` loops that are not structurally recursive (`TokenScanner::next` and the
  token loop of `parse_str`) carry a fuel argument; `Fault.out_of_fuel` is the result of an
  exhausted loop, and the fuel handed in by `next` and `parse_str` is shown to suffice.
-/

namespace Ini

/-! ## Errors -/

/-- Ways in which a call can end other than by returning. -/
inductive Fault where
  /-- An `IniParseError` was thrown; `what` is its message. -/
  | thrown (what : String)
  /-- The end iterator of `parsed_data` was dereferenced. -/
  | undefined_behaviour
  /-- A loop of the model ran out of fuel (never happens with the fuel supplied). -/
  | out_of_fuel
  deriving DecidableEq, Repr

/-- Function `IniParseError::format_error_info`: `oss << err << " at line " << line_no`,
with `line_no` (a `size_t`) written in decimal. -/
def format_error_info (err : String) (line_no : Nat) : String :=
  err ++ " at line " ++ toString line_no

/-- Constructor `IniParseError {err, line_no}` followed by `throw`. -/
def IniParseError (err : String) (line_no : Nat) : Fault :=
  Fault.thrown (format_error_info err line_no)

/-! ## `std::map` as an association list -/

/-- Member `map::find`: the value stored under `k`, if any. -/
def map_find {κ ν : Type} [DecidableEq κ] : List (κ × ν) → κ → Option ν
  | [], _ => none
  | (k', v) :: rest, k => if k' = k then some v else map_find rest k

/-- Member `map::try_emplace(k)`: adds `k` with a value-initialised mapped value when `k` is
absent, and leaves the map alone when `k` is present. -/
def map_try_emplace {κ ν : Type} [DecidableEq κ] (dflt : ν) : List (κ × ν) → κ → List (κ × ν)
  | [], k => [(k, dflt)]
  | (k', v) :: rest, k =>
    if k' = k then (k', v) :: rest else (k', v) :: map_try_emplace dflt rest k

/-- Member `map::insert_or_assign(k, v)`: overwrites the value of `k` or adds the pair. -/
def map_insert_or_assign {κ ν : Type} [DecidableEq κ] : List (κ × ν) → κ → ν → List (κ × ν)
  | [], k, v => [(k, v)]
  | (k', v') :: rest, k, v =>
    if k' = k then (k', v) :: rest else (k', v') :: map_insert_or_assign rest k v

/-- Applies `f` to the mapped value of the element an iterator with key `k` points to. -/
def map_modify {κ ν : Type} [DecidableEq κ] (f : ν → ν) : List (κ × ν) → κ → List (κ × ν)
  | [], _ => []
  | (k', v) :: rest, k =>
    if k' = k then (k', f v) :: rest else (k', v) :: map_modify f rest k

/-! ## The document -/

/-- A `string_view` into the buffer. -/
abbrev StringView := List Char

/-- The inner `map<string_view, string_view>` of one section. -/
abbrev Section := List (StringView × StringView)

/-- Class `IniResult`. -/
structure IniResult where
  raw_content : List Char
  parsed_data : List (StringView × Section)
  deriving DecidableEq, Repr

/-- An iterator into `parsed_data`: `none` is `end(parsed_data)`, `some name` points to
the element whose key is `name`. -/
abbrev SectionIter := Option StringView

namespace IniResult

/-- Constructor `IniResult(string raw_content_)`. -/
def create (raw_content : List Char) : IniResult :=
  { raw_content := raw_content, parsed_data := [] }

/-- Member `view()`. -/
def view (r : IniResult) : StringView := r.raw_content

/-- Overload `insert(string_view section_name)`:
`parsed_data.try_emplace(section_name).first`. -/
def insert (r : IniResult) (section_name : StringView) : IniResult × SectionIter :=
  let data := map_try_emplace [] r.parsed_data section_name
  ({ r with parsed_data := data }, some section_name)

/-- Overload `insert(section_iter, key, value)`:
`section_iter->second.insert_or_assign(key, value)`.  An iterator obtained from
`insert(section_name)` names an element that exists, since nothing is ever erased. -/
def insert_at (r : IniResult) (section_iter : SectionIter) (key value : StringView) :
    Except Fault IniResult :=
  match section_iter with
  | none => Except.error Fault.undefined_behaviour
  | some name =>
    let data := map_modify (fun s => map_insert_or_assign s key value) r.parsed_data name
    Except.ok { r with parsed_data := data }

/-- Overload `contains(section_name)`. -/
def contains (r : IniResult) (section_name : StringView) : Bool :=
  (map_find r.parsed_data section_name).isSome

/-- Overload `contains(section_name, key)`. -/
def contains_key (r : IniResult) (section_name key : StringView) : Bool :=
  match map_find r.parsed_data section_name with
  | none => false
  | some s => (map_find s key).isSome

/-- Overload `get(section_name, key)` returning `optional<string_view>`. -/
def get (r : IniResult) (section_name key : StringView) : Option StringView :=
  match map_find r.parsed_data section_name with
  | some s =>
    match map_find s key with
    | some v => some v
    | none => none
  | none => none

end IniResult

/-! ## The scanner -/

/-- Enumeration `IniParser::Token`. -/
inductive Token where
  | end_
  | opened_square_brace
  | closed_square_brace
  | equal
  | text
  deriving DecidableEq, Repr

/-- Class `IniParser::TokenScanner`. -/
structure TokenScanner where
  source : List Char
  cur : List Char
  line_no : Nat
  text : StringView
  deriving DecidableEq, Repr

/-- The array `boms` of `skip_bom`. -/
def boms : List Int := [0xef, 0xbb, 0xbf]

/-- Integral promotion of a `char`: whether plain `char` is signed is
implementation-defined, so it is a parameter. -/
def char_to_int (char_signed : Bool) (c : Char) : Int :=
  if char_signed && decide (128 ≤ c.toNat) then (c.toNat : Int) - 256 else (c.toNat : Int)

namespace TokenScanner

/-- Member `skip_bom`: `ranges::equal(boms, source)` compares the whole of `source`
with the three bytes, element by element after integral promotion. -/
def skip_bom (char_signed : Bool) (sc : TokenScanner) : TokenScanner :=
  if boms = sc.source.map (char_to_int char_signed) then
    { sc with cur := sc.cur.drop boms.length }
  else sc

/-- The `while` loop of `skip_comment`, on the input at the cursor and `line_no`. -/
def skip_comment_loop : List Char → Nat → List Char × Nat
  | [], line_no => ([], line_no)
  | c :: rest, line_no =>
    if c = '\n' then (rest, line_no + 1) else skip_comment_loop rest line_no

/-- Member `skip_comment`. -/
def skip_comment (sc : TokenScanner) : TokenScanner :=
  let r := skip_comment_loop (sc.cur.drop 1) sc.line_no
  { sc with cur := r.1, line_no := r.2 }

/-- The `while` loop of `scan_quoted_string<end_char>`: the characters from `str_begin`
to `str_end`, and the cursor behind the closing quote. -/
def scan_quoted_loop (end_char : Char) (line_no : Nat) :
    List Char → Except Fault (StringView × List Char)
  | [] => Except.error (IniParseError "Unclosed string" line_no)
  | c :: rest =>
    if c = '\n' then Except.error (IniParseError "Unclosed string" line_no)
    else if c = end_char then Except.ok ([], rest)
    else
      match scan_quoted_loop end_char line_no rest with
      | Except.ok (t, r) => Except.ok (c :: t, r)
      | Except.error e => Except.error e

/-- Member `scan_quoted_string<end_char>`. -/
def scan_quoted_string (end_char : Char) (sc : TokenScanner) :
    Except Fault (Token × TokenScanner) :=
  match scan_quoted_loop end_char sc.line_no (sc.cur.drop 1) with
  | Except.ok (t, r) => Except.ok (Token.text, { sc with cur := r, text := t })
  | Except.error e => Except.error e

/-- The `while` loop of `scan_unquoted_word`: the characters from `str_begin` to `cur`,
and the cursor, which stays on the terminating character. -/
def scan_unquoted_loop (line_no : Nat) : List Char → Except Fault (StringView × List Char)
  | [] => Except.error (IniParseError "Unclosed string" line_no)
  | c :: rest =>
    if c = ' ' ∨ c = '\t' ∨ c = '\r' ∨ c = '\n' ∨ c = '=' ∨ c = '"' ∨ c = '\'' ∨ c = '#'
        ∨ c = ';' then
      Except.ok ([], c :: rest)
    else
      match scan_unquoted_loop line_no rest with
      | Except.ok (t, r) => Except.ok (c :: t, r)
      | Except.error e => Except.error e

/-- Member `scan_unquoted_word`. -/
def scan_unquoted_word (sc : TokenScanner) : Except Fault (Token × TokenScanner) :=
  match scan_unquoted_loop sc.line_no sc.cur with
  | Except.ok (t, r) => Except.ok (Token.text, { sc with cur := r, text := t })
  | Except.error e => Except.error e

/-- Constructor `TokenScanner(string_view source_)`. -/
def create (char_signed : Bool) (source : List Char) : TokenScanner :=
  skip_bom char_signed { source := source, cur := source, line_no := 1, text := [] }

/-- The `while` loop of `next`; one unit of fuel per iteration. -/
def next_loop : Nat → TokenScanner → Except Fault (Token × TokenScanner)
  | 0, _ => Except.error Fault.out_of_fuel
  | fuel + 1, sc =>
    match sc.cur with
    | [] => Except.ok (Token.end_, sc)
    | c :: rest =>
      if c = ' ' ∨ c = '\t' ∨ c = '\r' then next_loop fuel { sc with cur := rest }
      else if c = '\n' then
        next_loop fuel { sc with cur := rest, line_no := sc.line_no + 1 }
      else if c = '#' ∨ c = ';' then next_loop fuel (skip_comment sc)
      else if c = '[' then Except.ok (Token.opened_square_brace, { sc with cur := rest })
      else if c = ']' then Except.ok (Token.closed_square_brace, { sc with cur := rest })
      else if c = '=' then Except.ok (Token.equal, { sc with cur := rest })
      else if c = '"' then scan_quoted_string '"' sc
      else if c = '\'' then scan_quoted_string '\'' sc
      else scan_unquoted_word sc

/-- Member `next`.  Every iteration of its loop moves the cursor forward, so one unit of
fuel per remaining character, plus one for the final test, is enough. -/
def next (sc : TokenScanner) : Except Fault (Token × TokenScanner) :=
  next_loop (sc.cur.length + 1) sc

/-- Member `text_view`. -/
def text_view (sc : TokenScanner) : StringView := sc.text

/-- Member `line_index`. -/
def line_index (sc : TokenScanner) : Nat := sc.line_no

end TokenScanner

/-! ## The parser -/

/-- The variables of `parse_str` that live across iterations of its loop. -/
structure ParseState where
  scanner : TokenScanner
  result : IniResult
  section_iter : SectionIter
  deriving DecidableEq, Repr

/-- Function `IniParser::parse_section_name`; called with the `[` already consumed. -/
def parse_section_name (scanner : TokenScanner) (ini_result : IniResult) :
    Except Fault (TokenScanner × IniResult × SectionIter) :=
  let line_index := scanner.line_index
  match scanner.next with
  | Except.error e => Except.error e
  | Except.ok (t1, sc1) =>
    if t1 ≠ Token.text then Except.error (IniParseError "invalid section name" line_index)
    else
      match sc1.next with
      | Except.error e => Except.error e
      | Except.ok (t2, sc2) =>
        if t2 ≠ Token.closed_square_brace then
          Except.error
            (IniParseError "invalid section name: missing close square brace" line_index)
        else
          let r := ini_result.insert sc2.text_view
          Except.ok (sc2, r.1, r.2)

/-- Function `IniParser::parse_property`; called with the key in `text_view()`. -/
def parse_property (scanner : TokenScanner) (ini_result : IniResult)
    (section_iter : SectionIter) : Except Fault (TokenScanner × IniResult) :=
  let key := scanner.text_view
  match scanner.next with
  | Except.error e => Except.error e
  | Except.ok (t1, sc1) =>
    if t1 ≠ Token.equal then
      Except.error (IniParseError "expected equal after parameter name" sc1.line_index)
    else
      match sc1.next with
      | Except.error e => Except.error e
      | Except.ok (t2, sc2) =>
        if t2 ≠ Token.text then
          Except.error (IniParseError "expected parameter value" sc2.line_index)
        else
          let value := sc2.text_view
          match ini_result.insert_at section_iter key value with
          | Except.error e => Except.error e
          | Except.ok r => Except.ok (sc2, r)

/-- One iteration of the `while` loop of `parse_str`: `none` when the token is
`Token::end` (the loop is left), the state after the body otherwise. -/
def parse_iteration (st : ParseState) : Except Fault (Option ParseState) :=
  match st.scanner.next with
  | Except.error e => Except.error e
  | Except.ok (token, sc) =>
    match token with
    | Token.end_ => Except.ok none
    | Token.opened_square_brace =>
      match parse_section_name sc st.result with
      | Except.error e => Except.error e
      | Except.ok (sc2, r, it) =>
        Except.ok (some { scanner := sc2, result := r, section_iter := it })
    | Token.text =>
      match parse_property sc st.result st.section_iter with
      | Except.error e => Except.error e
      | Except.ok (sc2, r) =>
        Except.ok (some { scanner := sc2, result := r, section_iter := st.section_iter })
    | _ => Except.error (IniParseError "expected section or parameter" sc.line_index)

/-- The `while` loop of `parse_str`; one unit of fuel per iteration. -/
def parse_loop : Nat → ParseState → Except Fault IniResult
  | 0, _ => Except.error Fault.out_of_fuel
  | fuel + 1, st =>
    match parse_iteration st with
    | Except.error e => Except.error e
    | Except.ok none => Except.ok st.result
    | Except.ok (some st2) => parse_loop fuel st2

/-- The state of `parse_str` on entry to its loop. -/
def parse_start (char_signed : Bool) (source : List Char) : ParseState :=
  let result := IniResult.create source
  { scanner := TokenScanner.create char_signed result.view,
    result := result,
    section_iter := none }

/-- Function `IniParser::parse_str`.  Every iteration of the loop but the last consumes a
token, so one unit of fuel per character of the input, plus one, is enough. -/
def parse_str (char_signed : Bool) (source : List Char) : Except Fault IniResult :=
  parse_loop (source.length + 1) (parse_start char_signed source)

/-- Equality of outcomes is decidable, so that concrete runs can be evaluated. -/
instance instDecidableEqOutcome {ε α : Type} [DecidableEq ε] [DecidableEq α] :
    DecidableEq (Except ε α)
  | Except.ok a, Except.ok b =>
    if h : a = b then isTrue (by rw [h]) else isFalse (fun h2 => h (Except.ok.inj h2))
  | Except.error a, Except.error b =>
    if h : a = b then isTrue (by rw [h]) else isFalse (fun h2 => h (Except.error.inj h2))
  | Except.ok _, Except.error _ => isFalse (fun h => Except.noConfusion h)
  | Except.error _, Except.ok _ => isFalse (fun h => Except.noConfusion h)

/-! ## Character classes used in the statements -/

/-- Space, tab or carriage return: skipped by `next` without a change of line. -/
def is_blank (c : Char) : Prop := c = ' ' ∨ c = '\t' ∨ c = '\r'

instance : DecidablePred is_blank := fun c => by unfold is_blank; infer_instance

/-- The characters at which `scan_unquoted_word` stops. -/
def is_terminator (c : Char) : Prop :=
  c = ' ' ∨ c = '\t' ∨ c = '\r' ∨ c = '\n' ∨ c = '=' ∨ c = '"' ∨ c = '\'' ∨ c = '#' ∨ c = ';'

instance : DecidablePred is_terminator := fun c => by unfold is_terminator; infer_instance

/-- A non-empty unquoted word: no terminator in it, and no bracket in front. -/
def is_word (w : List Char) : Prop :=
  w ≠ [] ∧ (∀ c ∈ w, ¬ is_terminator c) ∧ w.head? ≠ some '[' ∧ w.head? ≠ some ']'

instance : DecidablePred is_word := fun w => by unfold is_word; infer_instance

/-! ## Runs of the scanner and of the parser loop -/

/-- Scanner `sc2` is scanner `sc` after the characters `mid` were consumed: the cursor
moved over `mid`, the line number grew by the line feeds of `mid`, the buffer is the
same. -/
def consumed (sc sc2 : TokenScanner) (mid : List Char) : Prop :=
  sc.cur = mid ++ sc2.cur ∧ sc2.line_no = sc.line_no + mid.count '\n' ∧
    sc2.source = sc.source

/-- The cursor of `sc` lies in `source` behind the text `pre`, and `line_no` is one more
than the number of line feeds of `pre`. -/
def scanner_at (source : List Char) (sc : TokenScanner) (pre : List Char) : Prop :=
  sc.source = source ∧ source = pre ++ sc.cur ∧ sc.line_no = 1 + pre.count '\n'

/-- The first `n` iterations of the loop of `parse_str` from state `st`: the state
reached when none of them throws or leaves the loop. -/
def parse_iterations : Nat → ParseState → Except Fault (Option ParseState)
  | 0, st => Except.ok (some st)
  | n + 1, st =>
    match parse_iteration st with
    | Except.ok (some st2) => parse_iterations n st2
    | other => other

/-! ## The coercion layer -/

/-- Library function `tolower` applied to an `unsigned char`, in the "C" locale (the locale
in force as the program never calls `setlocale`): the letters `A` to `Z` are mapped to `a`
to `z`, every other byte is returned as it is. -/
def tolower (c : Char) : Char :=
  if 'A'.toNat ≤ c.toNat ∧ c.toNat ≤ 'Z'.toNat then Char.ofNat (c.toNat + 32) else c

/-- The set `true_strings` of `string_to<bool>`. -/
def true_strings : List (List Char) := ["true".toList, "t".toList, "yes".toList, "y".toList]

/-- The set `false_strings` of `string_to<bool>`. -/
def false_strings : List (List Char) := ["false".toList, "f".toList, "no".toList, "n".toList]

/-- Enumeration `std::errc`, as far as `from_chars` returns it; `success` is `errc {}`. -/
inductive errc where
  | success
  | invalid_argument
  | result_out_of_range
  deriving DecidableEq, Repr

/-- Structure `std::from_chars_result`; `ptr` is modelled by the input from `ptr` on. -/
structure from_chars_result where
  ptr : List Char
  ec : errc
  deriving DecidableEq, Repr

/-- Least value of `int`, which has 32 bits. -/
def INT_MIN : Int := -2147483648

/-- Greatest value of `int`, which has 32 bits. -/
def INT_MAX : Int := 2147483647

/-- The value of a decimal digit character, `none` for any other character. -/
def digit_value (c : Char) : Option Nat :=
  if '0'.toNat ≤ c.toNat ∧ c.toNat ≤ '9'.toNat then some (c.toNat - '0'.toNat) else none

/-- The digit loop of `from_chars`: reads the longest run of decimal digits, accumulating
their value in `acc`; returns the value and the input behind the run. -/
def scan_digits : List Char → Nat → Nat × List Char
  | [], acc => (acc, [])
  | c :: rest, acc =>
    match digit_value c with
    | some d => scan_digits rest (10 * acc + d)
    | none => (acc, c :: rest)

/-- Library function `std::from_chars(first, last, value)` for `int` and base 10, after
the C++ standard: the pattern is an optional `-` followed by a non-empty run of decimal
digits, with no leading white space and no `+`.  Without a match `ptr` is `first` and `ec`
is `invalid_argument`; when the number matched is not representable in `int`, `ptr` is
behind the match and `ec` is `result_out_of_range`; in both cases `value` is not modified.
Otherwise `value` is the number, `ptr` is behind the match and `ec` is `errc {}`.
No digit was matched exactly when the input behind the run of digits is as long as the
input behind the sign. -/
def from_chars (first : List Char) (value : Int) : from_chars_result × Int :=
  let negative := decide (first.head? = some '-')
  let body := if negative then first.drop 1 else first
  let r := scan_digits body 0
  if r.2.length = body.length then ({ ptr := first, ec := errc.invalid_argument }, value)
  else
    let number : Int := if negative then -(r.1 : Int) else (r.1 : Int)
    if INT_MIN ≤ number ∧ number ≤ INT_MAX then ({ ptr := r.2, ec := errc.success }, number)
    else ({ ptr := r.2, ec := errc.result_out_of_range }, value)

namespace IniResult

/-- Instance `string_to<string>`: `return string {str}`. -/
def string_to_string (str : StringView) : Option (List Char) := some str

/-- Instance `string_to<bool>`. -/
def string_to_bool (str : StringView) : Option Bool :=
  let lower_str := str.map tolower
  if lower_str ∈ true_strings then some true
  else if lower_str ∈ false_strings then some false
  else none

/-- Instance `string_to<int>`: the branch `is_arithmetic_v<T>` with `T = int`. -/
def string_to_int (str : StringView) : Option Int :=
  let r := from_chars str 0
  if r.1.ec ≠ errc.success ∨ r.1.ptr ≠ [] then none else some r.2

/-- Template `get<T>(section_name, key)`; `string_to` is the instance `string_to<T>`. -/
def get_as {α : Type} (string_to : StringView → Option α) (r : IniResult)
    (section_name key : StringView) : Option α :=
  match r.get section_name key with
  | some value => string_to value
  | none => none

end IniResult

/-! ## Notions used in the statements about the coercion layer and the document -/

/-- The number a run of decimal digits denotes, most significant digit first. -/
def decimal_number (digits : List Char) : Nat :=
  Nat.ofDigits 10 (digits.reverse.map (fun c => c.toNat - '0'.toNat))

/-- A decimal digit character. -/
def is_digit (c : Char) : Prop := '0'.toNat ≤ c.toNat ∧ c.toNat ≤ '9'.toNat

instance : DecidablePred is_digit := fun c => by unfold is_digit; infer_instance

/-- One of the two updates `parse_str` performs on the document: the get-or-create of
a section header, and the insertion of a property into a section. -/
inductive Update where
  | header (name : StringView)
  | property (name key value : StringView)
  deriving DecidableEq, Repr

/-- The document after one update; a property is inserted through the iterator of its
section, as `parse_property` does. -/
def apply_update (r : IniResult) : Update → IniResult
  | Update.header name => (r.insert name).1
  | Update.property name key value =>
    match r.insert_at (some name) key value with
    | Except.ok r2 => r2
    | Except.error _ => r

/-- The document after a sequence of updates. -/
def apply_updates (r : IniResult) (ops : List Update) : IniResult :=
  ops.foldl apply_update r

/-! ## Tokens in the input, repeated calls of `next`, and the cursor at a `throw` -/

/-- The characters `chars` with which the token `tok` of text `text` stands in the input:
nothing for `end`, the one character of a structural token, the word itself for an
unquoted text (which is then non-empty and free of terminators), and the text between
its two quote characters for a quoted one. -/
def token_chars (tok : Token) (text chars : List Char) : Prop :=
  match tok with
  | Token.end_ => chars = []
  | Token.opened_square_brace => chars = ['[']
  | Token.closed_square_brace => chars = [']']
  | Token.equal => chars = ['=']
  | Token.text =>
    (chars = text ∧ text ≠ [] ∧ ∀ c ∈ text, ¬ is_terminator c) ∨
    (∃ q, (q = '"' ∨ q = '\'') ∧ chars = q :: (text ++ [q]) ∧ ∀ c ∈ text, c ≠ q ∧ c ≠ '\n')

/-- A call of `next` on `sc` returned `tok` and left the scanner `sc2`: it skipped
`skipped`, then read the token as `chars`; only the line feeds of `skipped` were counted,
`chars` has none, and after `end` the cursor is at the end of the input. -/
def scanned (sc sc2 : TokenScanner) (tok : Token) (skipped chars : List Char) : Prop :=
  sc.cur = skipped ++ (chars ++ sc2.cur) ∧ sc2.source = sc.source ∧
    sc2.line_no = sc.line_no + skipped.count '\n' ∧ chars.count '\n' = 0 ∧
    token_chars tok sc2.text chars ∧ (tok = Token.end_ → sc2.cur = [])

/-- The scanner after `n` calls of `next` that all returned a token. -/
def next_times : Nat → TokenScanner → Except Fault TokenScanner
  | 0, sc => Except.ok sc
  | n + 1, sc =>
    match sc.next with
    | Except.ok (_, sc2) => next_times n sc2
    | Except.error e => Except.error e

namespace TokenScanner

/-- The value of `cur` when the loop of `scan_quoted_string<end_char>` is left, by
`return` or by `throw`; the argument is the input behind the opening quote. -/
def scan_quoted_cursor (end_char : Char) : List Char → List Char
  | [] => []
  | c :: rest =>
    if c = '\n' then c :: rest
    else if c = end_char then rest
    else scan_quoted_cursor end_char rest

/-- The value of `cur` when the loop of `scan_unquoted_word` is left, by `return` or by
`throw`. -/
def scan_unquoted_cursor : List Char → List Char
  | [] => []
  | c :: rest =>
    if c = ' ' ∨ c = '\t' ∨ c = '\r' ∨ c = '\n' ∨ c = '=' ∨ c = '"' ∨ c = '\'' ∨ c = '#'
        ∨ c = ';' then
      c :: rest
    else scan_unquoted_cursor rest

/-- The value of `cur` when the loop of `next` is left, by `return` or by `throw`. -/
def next_cursor_loop : Nat → TokenScanner → List Char
  | 0, sc => sc.cur
  | fuel + 1, sc =>
    match sc.cur with
    | [] => []
    | c :: rest =>
      if c = ' ' ∨ c = '\t' ∨ c = '\r' then next_cursor_loop fuel { sc with cur := rest }
      else if c = '\n' then
        next_cursor_loop fuel { sc with cur := rest, line_no := sc.line_no + 1 }
      else if c = '#' ∨ c = ';' then next_cursor_loop fuel (skip_comment sc)
      else if c = '[' then rest
      else if c = ']' then rest
      else if c = '=' then rest
      else if c = '"' then scan_quoted_cursor '"' rest
      else if c = '\'' then scan_quoted_cursor '\'' rest
      else scan_unquoted_cursor (c :: rest)

/-- The value of `cur` after a call of `next`, whether it returned or threw. -/
def next_cursor (sc : TokenScanner) : List Char :=
  next_cursor_loop (sc.cur.length + 1) sc

end TokenScanner

/-! ## Lookups after an update of a map -/

theorem map_find_try_emplace {κ ν : Type} [DecidableEq κ] (dflt : ν) (m : List (κ × ν))
    (k k2 : κ) :
    map_find (map_try_emplace dflt m k) k2 =
      if k = k2 then some ((map_find m k).getD dflt) else map_find m k2 := by
  induction m with
  | nil => simp [map_try_emplace, map_find]
  | cons p rest ih =>
    obtain ⟨k1, v1⟩ := p
    by_cases h1 : k1 = k
    · subst h1
      by_cases h2 : k1 = k2 <;> simp [map_try_emplace, map_find, h2]
    · by_cases h2 : k1 = k2
      · subst h2
        have h3 : ¬ k = k1 := fun h => h1 h.symm
        simp [map_try_emplace, map_find, h1, h3]
      · simp [map_try_emplace, map_find, h1, h2, ih]

theorem map_find_insert_or_assign {κ ν : Type} [DecidableEq κ] (m : List (κ × ν))
    (k k2 : κ) (v : ν) :
    map_find (map_insert_or_assign m k v) k2 = if k = k2 then some v else map_find m k2 := by
  induction m with
  | nil => simp [map_insert_or_assign, map_find]
  | cons p rest ih =>
    obtain ⟨k1, v1⟩ := p
    by_cases h1 : k1 = k
    · subst h1
      by_cases h2 : k1 = k2 <;> simp [map_insert_or_assign, map_find, h2]
    · by_cases h2 : k1 = k2
      · subst h2
        have h3 : ¬ k = k1 := fun h => h1 h.symm
        simp [map_insert_or_assign, map_find, h1, h3]
      · simp [map_insert_or_assign, map_find, h1, h2, ih]

theorem map_find_modify {κ ν : Type} [DecidableEq κ] (f : ν → ν) (m : List (κ × ν))
    (k k2 : κ) :
    map_find (map_modify f m k) k2 =
      if k = k2 then (map_find m k).map f else map_find m k2 := by
  induction m with
  | nil => simp [map_modify, map_find]
  | cons p rest ih =>
    obtain ⟨k1, v1⟩ := p
    by_cases h1 : k1 = k
    · subst h1
      by_cases h2 : k1 = k2 <;> simp [map_modify, map_find, h2]
    · by_cases h2 : k1 = k2
      · subst h2
        have h3 : ¬ k = k1 := fun h => h1 h.symm
        simp [map_modify, map_find, h1, h3]
      · simp [map_modify, map_find, h1, h2, ih]

/-! ## The document: updates and lookups -/

theorem IniResult.get_insert (r : IniResult) (s s2 k : StringView) :
    (r.insert s).1.get s2 k = r.get s2 k := by
  unfold IniResult.insert IniResult.get
  simp only [map_find_try_emplace]
  by_cases h : s = s2
  · subst h
    cases hf : map_find r.parsed_data s <;> simp [map_find]
  · simp [h]

theorem IniResult.contains_insert (r : IniResult) (s : StringView) :
    (r.insert s).1.contains s = true := by
  simp [IniResult.insert, IniResult.contains, map_find_try_emplace]

theorem IniResult.contains_insert_of_contains (r : IniResult) (s s2 : StringView)
    (h : r.contains s2 = true) : (r.insert s).1.contains s2 = true := by
  unfold IniResult.insert IniResult.contains at *
  simp only [map_find_try_emplace]
  by_cases h2 : s = s2
  · simp [h2]
  · simpa [h2] using h

theorem IniResult.get_insert_at (r : IniResult) (s k v s2 k2 : StringView)
    (h : r.contains s = true) :
    ∃ r2, r.insert_at (some s) k v = Except.ok r2 ∧
      r2.get s2 k2 = (if s = s2 ∧ k = k2 then some v else r.get s2 k2) ∧
      (∀ s3, r2.contains s3 = r.contains s3) := by
  refine ⟨_, rfl, ?_, ?_⟩
  · unfold IniResult.contains at h
    unfold IniResult.get
    simp only [map_find_modify]
    by_cases h1 : s = s2
    · subst h1
      cases hf : map_find r.parsed_data s with
      | none => simp [hf] at h
      | some sec =>
        by_cases h2 : k = k2 <;> simp [map_find_insert_or_assign, h2]
    · simp [h1]
  · intro s3
    unfold IniResult.contains
    simp only [map_find_modify]
    by_cases h1 : s = s3
    · subst h1
      cases hf : map_find r.parsed_data s <;> simp
    · simp [h1]

/-! ## The scanning loops on inputs of a known shape -/

theorem scan_unquoted_loop_word (n : Nat) (w : List Char) (t : Char) (r : List Char)
    (hw : ∀ c ∈ w, ¬ is_terminator c) (ht : is_terminator t) :
    TokenScanner.scan_unquoted_loop n (w ++ t :: r) = Except.ok (w, t :: r) := by
  induction w with
  | nil =>
    unfold is_terminator at ht
    simp [TokenScanner.scan_unquoted_loop, ht]
  | cons c w ih =>
    have hc : ¬ is_terminator c := hw c (by simp)
    have ih2 := ih (fun d hd => hw d (by simp [hd]))
    unfold is_terminator at hc
    rw [List.cons_append, TokenScanner.scan_unquoted_loop, if_neg hc, ih2]

theorem scan_unquoted_loop_eof (n : Nat) (w : List Char)
    (hw : ∀ c ∈ w, ¬ is_terminator c) :
    TokenScanner.scan_unquoted_loop n w = Except.error (IniParseError "Unclosed string" n) := by
  induction w with
  | nil => simp [TokenScanner.scan_unquoted_loop]
  | cons c w ih =>
    have hc : ¬ is_terminator c := hw c (by simp)
    have ih2 := ih (fun d hd => hw d (by simp [hd]))
    unfold is_terminator at hc
    simp only [TokenScanner.scan_unquoted_loop, if_neg hc, ih2]

theorem scan_quoted_loop_closed (q : Char) (n : Nat) (t r : List Char)
    (ht : ∀ c ∈ t, c ≠ q ∧ c ≠ '\n') (hq : q ≠ '\n') :
    TokenScanner.scan_quoted_loop q n (t ++ q :: r) = Except.ok (t, r) := by
  induction t with
  | nil => simp [TokenScanner.scan_quoted_loop, hq]
  | cons c t ih =>
    have hc := ht c (by simp)
    have ih2 := ih (fun d hd => ht d (by simp [hd]))
    rw [List.cons_append, TokenScanner.scan_quoted_loop, if_neg hc.2, if_neg hc.1, ih2]

theorem scan_quoted_loop_unclosed (q : Char) (n : Nat) (t r : List Char)
    (ht : ∀ c ∈ t, c ≠ q) (hr : r = [] ∨ r.head? = some '\n') :
    TokenScanner.scan_quoted_loop q n (t ++ r) =
      Except.error (IniParseError "Unclosed string" n) := by
  induction t with
  | nil =>
    rcases hr with hr | hr
    · simp [hr, TokenScanner.scan_quoted_loop]
    · cases r with
      | nil => simp at hr
      | cons c r =>
        simp only [List.head?_cons, Option.some.injEq] at hr
        simp [TokenScanner.scan_quoted_loop, hr]
  | cons c t ih =>
    have hc := ht c (by simp)
    have ih2 := ih (fun d hd => ht d (by simp [hd]))
    by_cases hn : c = '\n'
    · simp [TokenScanner.scan_quoted_loop, hn]
    · rw [List.cons_append, TokenScanner.scan_quoted_loop, if_neg hn, if_neg hc, ih2]

/-! ## One call of `next` on inputs of a known shape -/

theorem next_cons (sc : TokenScanner) (c : Char) (rest : List Char) (h : sc.cur = c :: rest) :
    sc.next =
      if c = ' ' ∨ c = '\t' ∨ c = '\r' then TokenScanner.next { sc with cur := rest }
      else if c = '\n' then
        TokenScanner.next { sc with cur := rest, line_no := sc.line_no + 1 }
      else if c = '#' ∨ c = ';' then
        TokenScanner.next_loop (rest.length + 1) sc.skip_comment
      else if c = '[' then Except.ok (Token.opened_square_brace, { sc with cur := rest })
      else if c = ']' then Except.ok (Token.closed_square_brace, { sc with cur := rest })
      else if c = '=' then Except.ok (Token.equal, { sc with cur := rest })
      else if c = '"' then sc.scan_quoted_string '"'
      else if c = '\'' then sc.scan_quoted_string '\''
      else sc.scan_unquoted_word := by
  unfold TokenScanner.next
  rw [h]
  simp only [List.length_cons]
  rw [TokenScanner.next_loop]
  simp only [h]

theorem next_nil (sc : TokenScanner) (h : sc.cur = []) :
    sc.next = Except.ok (Token.end_, sc) := by
  unfold TokenScanner.next
  rw [h]
  simp [TokenScanner.next_loop, h]

theorem next_skip_blanks (sc : TokenScanner) (a rest : List Char)
    (ha : ∀ c ∈ a, is_blank c) (h : sc.cur = a ++ rest) :
    sc.next = TokenScanner.next { sc with cur := rest } := by
  induction a generalizing sc with
  | nil =>
    simp only [List.nil_append] at h
    rw [← h]
  | cons c a ih =>
    have hc : is_blank c := ha c (by simp)
    unfold is_blank at hc
    rw [next_cons sc c (a ++ rest) (by simpa using h), if_pos hc]
    exact ih _ (fun d hd => ha d (by simp [hd])) rfl

theorem next_assign (sc : TokenScanner) (rest : List Char) (h : sc.cur = '=' :: rest) :
    sc.next = Except.ok (Token.equal, { sc with cur := rest }) := by
  rw [next_cons sc _ _ h]
  simp

theorem next_word (sc : TokenScanner) (w : List Char) (t : Char) (r : List Char)
    (hw : is_word w) (ht : is_terminator t) (h : sc.cur = w ++ t :: r) :
    sc.next = Except.ok (Token.text, { sc with cur := t :: r, text := w }) := by
  obtain ⟨hne, hterm, hob, hcb⟩ := hw
  cases w with
  | nil => exact absurd rfl hne
  | cons c w =>
    have hc : ¬ is_terminator c := hterm c (by simp)
    simp only [List.head?_cons, ne_eq, Option.some.injEq] at hob hcb
    unfold is_terminator at hc
    simp only [not_or] at hc
    obtain ⟨h1, h2, h3, h4, h5, h6, h7, h8, h9⟩ := hc
    rw [next_cons sc c (w ++ t :: r) (by simpa using h)]
    simp only [h1, h2, h3, h4, h5, h6, h7, h8, h9, hob, hcb, or_self, if_false]
    unfold TokenScanner.scan_unquoted_word
    rw [h, scan_unquoted_loop_word sc.line_no (c :: w) t r hterm ht]

theorem next_word_eof (sc : TokenScanner) (w : List Char) (hw : is_word w) (h : sc.cur = w) :
    sc.next = Except.error (IniParseError "Unclosed string" sc.line_no) := by
  obtain ⟨hne, hterm, hob, hcb⟩ := hw
  cases w with
  | nil => exact absurd rfl hne
  | cons c w =>
    have hc : ¬ is_terminator c := hterm c (by simp)
    simp only [List.head?_cons, ne_eq, Option.some.injEq] at hob hcb
    unfold is_terminator at hc
    simp only [not_or] at hc
    obtain ⟨h1, h2, h3, h4, h5, h6, h7, h8, h9⟩ := hc
    rw [next_cons sc c w h]
    simp only [h1, h2, h3, h4, h5, h6, h7, h8, h9, hob, hcb, or_self, if_false]
    unfold TokenScanner.scan_unquoted_word
    rw [h, scan_unquoted_loop_eof sc.line_no (c :: w) hterm]

/-! ## Properties of the document and of single tokens -/

/-- C2: with a current section `s`, the key `k` in `text_view()` and the remaining input
`a ++ "=" ++ b ++ v ++ t ++ r` (`a`, `b` runs of blanks, `v` an unquoted word, `t` a
terminating character), `parse_property` succeeds, the cursor stops on `t`, and afterwards
`get(s, k)` is exactly `v`. -/
theorem parse_property_stores_value (sc : TokenScanner) (res : IniResult)
    (s k v a b r : List Char) (t : Char)
    (hs : res.contains s = true) (hk : sc.text_view = k) (hv : is_word v)
    (ha : ∀ c ∈ a, is_blank c) (hb : ∀ c ∈ b, is_blank c) (ht : is_terminator t)
    (h : sc.cur = a ++ '=' :: (b ++ (v ++ t :: r))) :
    ∃ sc2 res2, parse_property sc res (some s) = Except.ok (sc2, res2) ∧
      res2.get s k = some v ∧ sc2.cur = t :: r := by
  have e1 : sc.next =
      Except.ok (Token.equal, { sc with cur := b ++ (v ++ t :: r) }) := by
    rw [next_skip_blanks sc a _ ha h]
    exact next_assign _ _ rfl
  have e2 : TokenScanner.next { sc with cur := b ++ (v ++ t :: r) } =
      Except.ok (Token.text, { sc with cur := t :: r, text := v }) := by
    rw [next_skip_blanks _ b (v ++ t :: r) hb rfl]
    exact next_word _ v t r hv ht rfl
  obtain ⟨r2, hr2, hget, _⟩ := IniResult.get_insert_at res s k v s k hs
  refine ⟨{ sc with cur := t :: r, text := v }, r2, ?_, ?_, rfl⟩
  · unfold parse_property
    simp only [e1, e2, TokenScanner.text_view] at *
    simp [hk, hr2]
  · simpa using hget

/-- Witness of C2 on the line `k = v` of a document with the section `s`. -/
theorem parse_property_stores_value_witness :
    is_word "v".toList ∧ is_terminator '\n' ∧
    ∃ sc2 res2,
      parse_property
        { source := "[\"s\"]\nk \t=\r v\n".toList, cur := " \t=\r v\n".toList, line_no := 2,
          text := "k".toList }
        { raw_content := "[\"s\"]\nk \t=\r v\n".toList, parsed_data := [("s".toList, [])] }
        (some "s".toList) = Except.ok (sc2, res2) ∧
      res2.get "s".toList "k".toList = some "v".toList ∧ sc2.cur = "\n".toList :=
  ⟨by decide, by decide,
   parse_property_stores_value _ _ "s".toList "k".toList "v".toList " \t".toList
     "\r ".toList [] '\n' (by decide) rfl (by decide) (by decide) (by decide) (by decide) rfl⟩

/-- C3: on the remaining input `q ++ t ++ q ++ r`, where `q` is a quote character and `t`
contains neither `q` nor a line feed, `next` returns a `text` token whose text is exactly
`t`, with the cursor at the start of `r`; the line number and the buffer are unchanged. -/
theorem next_quoted_verbatim (sc : TokenScanner) (q : Char) (t r : List Char)
    (hq : q = '"' ∨ q = '\'') (ht : ∀ c ∈ t, c ≠ q ∧ c ≠ '\n')
    (h : sc.cur = q :: (t ++ q :: r)) :
    ∃ sc2, sc.next = Except.ok (Token.text, sc2) ∧ sc2.text_view = t ∧ sc2.cur = r ∧
      sc2.line_index = sc.line_index ∧ sc2.source = sc.source := by
  have hqn : q ≠ '\n' := by rcases hq with hq | hq <;> rw [hq] <;> decide
  refine ⟨{ sc with cur := r, text := t }, ?_, rfl, rfl, rfl, rfl⟩
  rw [next_cons sc q _ h]
  rcases hq with hq | hq <;> subst hq <;>
    simp [TokenScanner.scan_quoted_string, h, scan_quoted_loop_closed _ _ t r ht hqn]

/-- Witness of C3 on a quoted text full of delimiters. -/
theorem next_quoted_verbatim_witness :
    (∀ c ∈ "a ;#=[]\"".toList, c ≠ '\'' ∧ c ≠ '\n') ∧
    ∃ sc2,
      TokenScanner.next
        { source := "k = 'a ;#=[]\"' # c\n".toList, cur := "'a ;#=[]\"' # c\n".toList,
          line_no := 7, text := "k".toList } = Except.ok (Token.text, sc2) ∧
      sc2.text_view = "a ;#=[]\"".toList ∧ sc2.cur = " # c\n".toList ∧
      sc2.line_index = 7 ∧ sc2.source = "k = 'a ;#=[]\"' # c\n".toList :=
  ⟨by decide,
   next_quoted_verbatim _ '\'' "a ;#=[]\"".toList " # c\n".toList (Or.inr rfl) (by decide) rfl⟩

/-- C4: the get-or-create step `insert(s)` of a section header leaves the value of
`get(s2, k)` unchanged for every section `s2` and key `k`, and afterwards `contains(s)`
holds. -/
theorem insert_section_keeps_entries (r : IniResult) (s : StringView) :
    (∀ s2 k, (r.insert s).1.get s2 k = r.get s2 k) ∧ (r.insert s).1.contains s = true ∧
      (r.insert s).2 = some s :=
  ⟨fun s2 k => IniResult.get_insert r s s2 k, IniResult.contains_insert r s, rfl⟩

/-- C5: for an existing section `s`, `insert(section s, k, v)` makes `get(s, k)` return
`v`, keeps `get(s2, k2)` for every other pair, and a second assignment of `k` in `s`
with `v2` makes `get(s, k)` return `v2`. -/
theorem insert_property_last_write_wins (r : IniResult) (s k v : StringView)
    (h : r.contains s = true) :
    ∃ r2, r.insert_at (some s) k v = Except.ok r2 ∧ r2.get s k = some v ∧
      (∀ s2 k2, (s2, k2) ≠ (s, k) → r2.get s2 k2 = r.get s2 k2) ∧
      (∀ v2, ∃ r3, r2.insert_at (some s) k v2 = Except.ok r3 ∧ r3.get s k = some v2) := by
  obtain ⟨r2, hr2, _, hc⟩ := IniResult.get_insert_at r s k v s k h
  refine ⟨r2, hr2, ?_, ?_, ?_⟩
  · obtain ⟨r2b, hr2b, hg, _⟩ := IniResult.get_insert_at r s k v s k h
    rw [hr2] at hr2b
    cases hr2b
    simpa using hg
  · intro s2 k2 hne
    obtain ⟨r2b, hr2b, hg, _⟩ := IniResult.get_insert_at r s k v s2 k2 h
    rw [hr2] at hr2b
    cases hr2b
    have hn : ¬ (s = s2 ∧ k = k2) := fun hh => hne (by rw [hh.1, hh.2])
    simpa [hn] using hg
  · intro v2
    have h2 : r2.contains s = true := by rw [hc s]; exact h
    obtain ⟨r3, hr3, hg, _⟩ := IniResult.get_insert_at r2 s k v2 s k h2
    exact ⟨r3, hr3, by simpa using hg⟩

/-- Witness of C5: the key `k` of section `s` already holds `old`. -/
theorem insert_property_last_write_wins_witness :
    IniResult.contains ⟨[], [("s".toList, [("k".toList, "old".toList)])]⟩ "s".toList = true ∧
    ∃ r2, IniResult.insert_at ⟨[], [("s".toList, [("k".toList, "old".toList)])]⟩
        (some "s".toList) "k".toList "v".toList = Except.ok r2 ∧
      r2.get "s".toList "k".toList = some "v".toList ∧
      (∀ s2 k2, (s2, k2) ≠ ("s".toList, "k".toList) →
        r2.get s2 k2 =
          IniResult.get ⟨[], [("s".toList, [("k".toList, "old".toList)])]⟩ s2 k2) ∧
      (∀ v2, ∃ r3, r2.insert_at (some "s".toList) "k".toList v2 = Except.ok r3 ∧
        r3.get "s".toList "k".toList = some v2) :=
  ⟨by decide, insert_property_last_write_wins _ "s".toList "k".toList "v".toList (by decide)⟩

/-- C8: on the remaining input `q ++ t ++ r`, where `q` is a quote character, `t` has no
`q` and `r` is empty or starts with a line feed, `next` throws the `IniParseError` with the
message `Unclosed string at line n`, `n` being the line number on entry. -/
theorem next_unclosed_quote (sc : TokenScanner) (q : Char) (t r : List Char)
    (hq : q = '"' ∨ q = '\'') (ht : ∀ c ∈ t, c ≠ q) (hr : r = [] ∨ r.head? = some '\n')
    (h : sc.cur = q :: (t ++ r)) :
    sc.next = Except.error (Fault.thrown (format_error_info "Unclosed string" sc.line_index)) := by
  rw [next_cons sc q _ h]
  rcases hq with hq | hq <;> subst hq <;>
    simp [TokenScanner.scan_quoted_string, h, scan_quoted_loop_unclosed _ _ t r ht hr,
      IniParseError, TokenScanner.line_index]

/-- Witness of C8: a double quote left open on line 3, before a line feed. -/
theorem next_unclosed_quote_witness :
    (∀ c ∈ "a 'b' ".toList, c ≠ '"') ∧
    TokenScanner.next
        { source := "k = \"a 'b' \nx".toList, cur := "\"a 'b' \nx".toList, line_no := 3,
          text := "k".toList } =
      Except.error (Fault.thrown (format_error_info "Unclosed string" 3)) :=
  ⟨by decide,
   next_unclosed_quote _ '"' "a 'b' ".toList "\nx".toList (Or.inl rfl) (by decide)
     (Or.inr rfl) rfl⟩

/-! ## What one call of `next` consumes -/

theorem consumed_cons (sc sc2 : TokenScanner) (c : Char) (rest mid : List Char) (k : Nat)
    (hc : sc.cur = c :: rest) (hk : k = sc.line_no + [c].count '\n')
    (h : consumed { sc with cur := rest, line_no := k } sc2 mid) :
    consumed sc sc2 (c :: mid) := by
  obtain ⟨h1, h2, h3⟩ := h
  simp only at h1 h2 h3
  refine ⟨by rw [hc, h1]; rfl, ?_, h3⟩
  rw [h2, hk, show c :: mid = [c] ++ mid from rfl, List.count_append]
  omega

theorem skip_comment_loop_spec (l : List Char) (n : Nat) :
    ∃ mid, l = mid ++ (TokenScanner.skip_comment_loop l n).1 ∧
      (TokenScanner.skip_comment_loop l n).2 = n + mid.count '\n' := by
  induction l with
  | nil => exact ⟨[], by simp [TokenScanner.skip_comment_loop]⟩
  | cons c l ih =>
    by_cases hc : c = '\n'
    · exact ⟨[c], by simp [TokenScanner.skip_comment_loop, hc]⟩
    · obtain ⟨mid, h1, h2⟩ := ih
      refine ⟨c :: mid, ?_, ?_⟩
      · simp only [TokenScanner.skip_comment_loop, if_neg hc, List.cons_append]
        rw [← h1]
      · simp only [TokenScanner.skip_comment_loop, if_neg hc]
        rw [h2, List.count_cons_of_ne (fun h => hc h.symm)]

theorem scan_quoted_loop_spec (q : Char) (n : Nat) (l t r : List Char)
    (h : TokenScanner.scan_quoted_loop q n l = Except.ok (t, r)) :
    l = t ++ q :: r ∧ t.count '\n' = 0 ∧ t.count q = 0 := by
  induction l generalizing t with
  | nil => simp [TokenScanner.scan_quoted_loop] at h
  | cons c l ih =>
    rw [TokenScanner.scan_quoted_loop] at h
    split_ifs at h with hn hq
    · cases h
      simp [hq]
    · cases hl : TokenScanner.scan_quoted_loop q n l with
      | error e => simp [hl] at h
      | ok p =>
        obtain ⟨t2, r2⟩ := p
        simp only [hl, Except.ok.injEq, Prod.mk.injEq] at h
        obtain ⟨rfl, rfl⟩ := h
        obtain ⟨h1, h2, h3⟩ := ih t2 hl
        refine ⟨by rw [h1]; rfl, ?_, ?_⟩
        · rw [List.count_cons_of_ne (fun h => hn h.symm)]; exact h2
        · rw [List.count_cons_of_ne (fun h => hq h.symm)]; exact h3

theorem scan_unquoted_loop_spec (n : Nat) (l t r : List Char)
    (h : TokenScanner.scan_unquoted_loop n l = Except.ok (t, r)) :
    l = t ++ r ∧ (∀ c ∈ t, ¬ is_terminator c) ∧ (∃ c r2, r = c :: r2 ∧ is_terminator c) := by
  induction l generalizing t with
  | nil => simp [TokenScanner.scan_unquoted_loop] at h
  | cons c l ih =>
    rw [TokenScanner.scan_unquoted_loop] at h
    split_ifs at h with hterm
    · cases h
      exact ⟨rfl, by simp, c, l, rfl, hterm⟩
    · cases hl : TokenScanner.scan_unquoted_loop n l with
      | error e => simp [hl] at h
      | ok p =>
        obtain ⟨t2, r2⟩ := p
        simp only [hl, Except.ok.injEq, Prod.mk.injEq] at h
        obtain ⟨rfl, rfl⟩ := h
        obtain ⟨h1, h2, h3⟩ := ih t2 hl
        refine ⟨by rw [h1]; rfl, ?_, h3⟩
        intro d hd
        rcases List.mem_cons.mp hd with hd | hd
        · rw [hd]; exact hterm
        · exact h2 d hd

theorem count_lf_of_no_terminator (t : List Char) (h : ∀ c ∈ t, ¬ is_terminator c) :
    t.count '\n' = 0 := by
  rw [List.count_eq_zero]
  intro hmem
  exact h _ hmem (by unfold is_terminator; simp)

theorem next_loop_spec (fuel : Nat) :
    ∀ (sc : TokenScanner) (tok : Token) (sc2 : TokenScanner),
      TokenScanner.next_loop fuel sc = Except.ok (tok, sc2) →
      ∃ mid, consumed sc sc2 mid ∧ (tok ≠ Token.end_ → mid ≠ []) ∧
        (tok = Token.end_ → sc2.cur = []) ∧
        (tok = Token.opened_square_brace → ∃ m, mid = m ++ ['[']) := by
  induction fuel with
  | zero =>
    intro sc tok sc2 h
    simp [TokenScanner.next_loop] at h
  | succ fuel ih =>
    intro sc tok sc2 h
    rw [TokenScanner.next_loop] at h
    cases hc : sc.cur with
    | nil =>
      simp only [hc, Except.ok.injEq, Prod.mk.injEq] at h
      obtain ⟨rfl, rfl⟩ := h
      exact ⟨[], ⟨by simp [hc], by simp, rfl⟩, by simp, fun _ => hc, by simp⟩
    | cons c rest =>
      simp only [hc] at h
      split_ifs at h with hb hn hcm ho hcl he hq1 hq2
      · obtain ⟨mid, h1, h2, h3, h4⟩ := ih _ _ _ h
        have hlf : [c].count '\n' = 0 := by
          rcases hb with hb | hb | hb <;> rw [hb] <;> decide
        refine ⟨c :: mid, consumed_cons sc sc2 c rest mid _ hc (by rw [hlf]; rfl) h1,
          by simp, h3, ?_⟩
        intro ht
        obtain ⟨m, hm⟩ := h4 ht
        exact ⟨c :: m, by rw [hm]; rfl⟩
      · obtain ⟨mid, h1, h2, h3, h4⟩ := ih _ _ _ h
        have hlf : [c].count '\n' = 1 := by rw [hn]; decide
        refine ⟨c :: mid, consumed_cons sc sc2 c rest mid _ hc (by rw [hlf]) h1,
          by simp, h3, ?_⟩
        intro ht
        obtain ⟨m, hm⟩ := h4 ht
        exact ⟨c :: m, by rw [hm]; rfl⟩
      · obtain ⟨mid, h1, h2, h3, h4⟩ := ih _ _ _ h
        obtain ⟨mc, hm1, hm2⟩ := skip_comment_loop_spec rest sc.line_no
        obtain ⟨g1, g2, g3⟩ := h1
        simp only [TokenScanner.skip_comment, hc, List.drop_succ_cons, List.drop_zero] at g1 g2 g3
        refine ⟨c :: (mc ++ mid), ⟨?_, ?_, g3⟩, by simp, h3, ?_⟩
        · rw [hc, List.cons_append, List.append_assoc, ← g1, ← hm1]
        · rw [g2, hm2, List.count_cons_of_ne (fun h => hn h.symm), List.count_append]
          omega
        · intro ht
          obtain ⟨m, hm⟩ := h4 ht
          exact ⟨c :: (mc ++ m), by rw [hm]; simp⟩
      · simp only [Except.ok.injEq, Prod.mk.injEq] at h
        obtain ⟨rfl, rfl⟩ := h
        exact ⟨[c], ⟨by simp [hc], by simp [List.count_cons_of_ne (fun h => hn h.symm)], rfl⟩,
          by simp, by simp, fun _ => ⟨[], by rw [ho]; rfl⟩⟩
      · simp only [Except.ok.injEq, Prod.mk.injEq] at h
        obtain ⟨rfl, rfl⟩ := h
        exact ⟨[c], ⟨by simp [hc], by simp [List.count_cons_of_ne (fun h => hn h.symm)], rfl⟩,
          by simp, by simp, by simp⟩
      · simp only [Except.ok.injEq, Prod.mk.injEq] at h
        obtain ⟨rfl, rfl⟩ := h
        exact ⟨[c], ⟨by simp [hc], by simp [List.count_cons_of_ne (fun h => hn h.symm)], rfl⟩,
          by simp, by simp, by simp⟩
      · unfold TokenScanner.scan_quoted_string at h
        simp only [hc, List.drop_succ_cons, List.drop_zero] at h
        cases hl : TokenScanner.scan_quoted_loop '"' sc.line_no rest with
        | error e => simp [hl] at h
        | ok p =>
          obtain ⟨t, r⟩ := p
          simp only [hl, Except.ok.injEq, Prod.mk.injEq] at h
          obtain ⟨rfl, rfl⟩ := h
          obtain ⟨h1, h2, _⟩ := scan_quoted_loop_spec _ _ _ _ _ hl
          refine ⟨c :: (t ++ ['"']), ⟨?_, ?_, rfl⟩, by simp, by simp, by simp⟩
          · simp [hc, h1]
          · simp only
            rw [List.count_cons_of_ne (fun h => hn h.symm), List.count_append, h2]
            simp
      · unfold TokenScanner.scan_quoted_string at h
        simp only [hc, List.drop_succ_cons, List.drop_zero] at h
        cases hl : TokenScanner.scan_quoted_loop '\'' sc.line_no rest with
        | error e => simp [hl] at h
        | ok p =>
          obtain ⟨t, r⟩ := p
          simp only [hl, Except.ok.injEq, Prod.mk.injEq] at h
          obtain ⟨rfl, rfl⟩ := h
          obtain ⟨h1, h2, _⟩ := scan_quoted_loop_spec _ _ _ _ _ hl
          refine ⟨c :: (t ++ ['\'']), ⟨?_, ?_, rfl⟩, by simp, by simp, by simp⟩
          · simp [hc, h1]
          · simp only
            rw [List.count_cons_of_ne (fun h => hn h.symm), List.count_append, h2]
            simp
      · unfold TokenScanner.scan_unquoted_word at h
        simp only [hc] at h
        cases hl : TokenScanner.scan_unquoted_loop sc.line_no (c :: rest) with
        | error e => simp [hl] at h
        | ok p =>
          obtain ⟨t, r⟩ := p
          simp only [hl, Except.ok.injEq, Prod.mk.injEq] at h
          obtain ⟨rfl, rfl⟩ := h
          obtain ⟨h1, h2, _⟩ := scan_unquoted_loop_spec _ _ _ _ hl
          refine ⟨t, ⟨by simp [hc, h1], ?_, rfl⟩, ?_, by simp, by simp⟩
          · simp only
            rw [count_lf_of_no_terminator t h2]
            rfl
          · intro _ ht
            subst ht
            rw [TokenScanner.scan_unquoted_loop] at hl
            split_ifs at hl with hterm
            · unfold is_blank at hb
              rcases hterm with h | h | h | h | h | h | h | h | h
              · exact hb (Or.inl h)
              · exact hb (Or.inr (Or.inl h))
              · exact hb (Or.inr (Or.inr h))
              · exact hn h
              · exact he h
              · exact hq1 h
              · exact hq2 h
              · exact hcm (Or.inl h)
              · exact hcm (Or.inr h)
            · cases hl2 : TokenScanner.scan_unquoted_loop sc.line_no rest with
              | error e => simp [hl2] at hl
              | ok p2 => simp [hl2] at hl

theorem next_spec (sc : TokenScanner) (tok : Token) (sc2 : TokenScanner)
    (h : sc.next = Except.ok (tok, sc2)) :
    ∃ mid, consumed sc sc2 mid ∧ (tok ≠ Token.end_ → mid ≠ []) ∧
      (tok = Token.end_ → sc2.cur = []) ∧
      (tok = Token.opened_square_brace → ∃ m, mid = m ++ ['[']) :=
  next_loop_spec _ sc tok sc2 h

theorem consumed_trans (a b c : TokenScanner) (m1 m2 : List Char)
    (h1 : consumed a b m1) (h2 : consumed b c m2) : consumed a c (m1 ++ m2) := by
  obtain ⟨a1, a2, a3⟩ := h1
  obtain ⟨b1, b2, b3⟩ := h2
  refine ⟨by rw [a1, b1, List.append_assoc], ?_, by rw [b3, a3]⟩
  rw [b2, a2, List.count_append]
  omega

theorem consumed_length (a b : TokenScanner) (m : List Char) (h : consumed a b m) :
    a.cur.length = m.length + b.cur.length := by
  rw [h.1, List.length_append]

theorem scanner_at_consumed (source : List Char) (a b : TokenScanner) (pre m : List Char)
    (h1 : scanner_at source a pre) (h2 : consumed a b m) :
    scanner_at source b (pre ++ m) := by
  obtain ⟨a1, a2, a3⟩ := h1
  obtain ⟨b1, b2, b3⟩ := h2
  refine ⟨by rw [b3, a1], by rw [List.append_assoc, ← b1]; exact a2, ?_⟩
  rw [b2, a3, List.count_append]
  omega

/-! ## What one iteration of the parser loop consumes -/

theorem parse_section_name_spec (sc sc2 : TokenScanner) (res res2 : IniResult)
    (it : SectionIter) (h : parse_section_name sc res = Except.ok (sc2, res2, it)) :
    ∃ mid, consumed sc sc2 mid := by
  unfold parse_section_name at h
  cases h1 : sc.next with
  | error e => simp [h1] at h
  | ok p1 =>
    obtain ⟨t1, sc1⟩ := p1
    simp only [h1] at h
    split_ifs at h with ht1
    cases h2 : sc1.next with
    | error e => simp [h2] at h
    | ok p2 =>
      obtain ⟨t2, sc2b⟩ := p2
      simp only [h2] at h
      split_ifs at h with ht2
      simp only [Except.ok.injEq, Prod.mk.injEq] at h
      obtain ⟨rfl, _, _⟩ := h
      obtain ⟨m1, c1, _⟩ := next_spec _ _ _ h1
      obtain ⟨m2, c2, _⟩ := next_spec _ _ _ h2
      exact ⟨m1 ++ m2, consumed_trans _ _ _ _ _ c1 c2⟩

theorem parse_property_spec (sc sc2 : TokenScanner) (res res2 : IniResult)
    (it : SectionIter) (h : parse_property sc res it = Except.ok (sc2, res2)) :
    ∃ mid, consumed sc sc2 mid := by
  unfold parse_property at h
  cases h1 : sc.next with
  | error e => simp [h1] at h
  | ok p1 =>
    obtain ⟨t1, sc1⟩ := p1
    simp only [h1] at h
    split_ifs at h with ht1
    cases h2 : sc1.next with
    | error e => simp [h2] at h
    | ok p2 =>
      obtain ⟨t2, sc2b⟩ := p2
      simp only [h2] at h
      split_ifs at h with ht2
      cases h3 : res.insert_at it sc.text_view sc2b.text_view with
      | error e => simp [h3] at h
      | ok r =>
        simp only [h3, Except.ok.injEq, Prod.mk.injEq] at h
        obtain ⟨rfl, _⟩ := h
        obtain ⟨m1, c1, _⟩ := next_spec _ _ _ h1
        obtain ⟨m2, c2, _⟩ := next_spec _ _ _ h2
        exact ⟨m1 ++ m2, consumed_trans _ _ _ _ _ c1 c2⟩

theorem parse_iteration_spec (st st2 : ParseState)
    (h : parse_iteration st = Except.ok (some st2)) :
    ∃ mid, mid ≠ [] ∧ consumed st.scanner st2.scanner mid := by
  unfold parse_iteration at h
  cases h1 : st.scanner.next with
  | error e => simp [h1] at h
  | ok p1 =>
    obtain ⟨tok, sc1⟩ := p1
    simp only [h1] at h
    obtain ⟨m1, c1, hne, _⟩ := next_spec _ _ _ h1
    cases tok with
    | end_ => simp at h
    | closed_square_brace => simp at h
    | equal => simp at h
    | opened_square_brace =>
      simp only at h
      cases h2 : parse_section_name sc1 st.result with
      | error e => simp [h2] at h
      | ok p2 =>
        obtain ⟨sc2, r, it⟩ := p2
        simp only [h2, Except.ok.injEq, Option.some.injEq] at h
        subst h
        obtain ⟨m2, c2⟩ := parse_section_name_spec _ _ _ _ _ h2
        exact ⟨m1 ++ m2, by simp [hne (by decide)], consumed_trans _ _ _ _ _ c1 c2⟩
    | text =>
      simp only at h
      cases h2 : parse_property sc1 st.result st.section_iter with
      | error e => simp [h2] at h
      | ok p2 =>
        obtain ⟨sc2, r⟩ := p2
        simp only [h2, Except.ok.injEq, Option.some.injEq] at h
        subst h
        obtain ⟨m2, c2⟩ := parse_property_spec _ _ _ _ _ h2
        exact ⟨m1 ++ m2, by simp [hne (by decide)], consumed_trans _ _ _ _ _ c1 c2⟩

theorem parse_iteration_shorter (st st2 : ParseState)
    (h : parse_iteration st = Except.ok (some st2)) :
    st2.scanner.cur.length < st.scanner.cur.length := by
  obtain ⟨mid, hne, hc⟩ := parse_iteration_spec st st2 h
  have hl := consumed_length _ _ _ hc
  have : 0 < mid.length := List.length_pos.mpr hne
  omega

/-! ## The fuel of the parser loop suffices -/

theorem parse_loop_fuel (f : Nat) :
    ∀ (g : Nat) (st : ParseState), st.scanner.cur.length < f → st.scanner.cur.length < g →
      parse_loop f st = parse_loop g st := by
  induction f with
  | zero => intro g st h; omega
  | succ f ih =>
    intro g st hf hg
    cases g with
    | zero => omega
    | succ g =>
      rw [parse_loop, parse_loop]
      cases h : parse_iteration st with
      | error e => rfl
      | ok o =>
        cases o with
        | none => rfl
        | some st2 =>
          have := parse_iteration_shorter st st2 h
          exact ih g st2 (by omega) (by omega)

theorem parse_loop_of_iterations (n : Nat) :
    ∀ (st0 st : ParseState) (f : Nat), parse_iterations n st0 = Except.ok (some st) →
      st0.scanner.cur.length < f →
      parse_loop f st0 = parse_loop (st.scanner.cur.length + 1) st := by
  induction n with
  | zero =>
    intro st0 st f h hf
    simp only [parse_iterations, Except.ok.injEq, Option.some.injEq] at h
    subst h
    exact parse_loop_fuel f _ _ hf (by omega)
  | succ n ih =>
    intro st0 st f h hf
    rw [parse_iterations] at h
    cases h1 : parse_iteration st0 with
    | error e => simp [h1] at h
    | ok o =>
      cases o with
      | none => simp [h1] at h
      | some st1 =>
        simp only [h1] at h
        have hs := parse_iteration_shorter st0 st1 h1
        cases f with
        | zero => omega
        | succ f =>
          rw [parse_loop]
          simp only [h1]
          exact ih st1 st f h (by omega)

theorem scanner_at_iterations (source : List Char) (n : Nat) :
    ∀ (st0 st : ParseState) (pre0 : List Char),
      parse_iterations n st0 = Except.ok (some st) → scanner_at source st0.scanner pre0 →
      ∃ pre, scanner_at source st.scanner pre := by
  induction n with
  | zero =>
    intro st0 st pre0 h h0
    simp only [parse_iterations, Except.ok.injEq, Option.some.injEq] at h
    subst h
    exact ⟨pre0, h0⟩
  | succ n ih =>
    intro st0 st pre0 h h0
    rw [parse_iterations] at h
    cases h1 : parse_iteration st0 with
    | error e => simp [h1] at h
    | ok o =>
      cases o with
      | none => simp [h1] at h
      | some st1 =>
        simp only [h1] at h
        obtain ⟨mid, _, hc⟩ := parse_iteration_spec st0 st1 h1
        exact ih st1 st _ h (scanner_at_consumed source _ _ pre0 mid h0 hc)

theorem count_lf_of_bom (cs : Bool) (source : List Char)
    (h : boms = source.map (char_to_int cs)) : source.count '\n' = 0 := by
  rw [List.count_eq_zero]
  intro hmem
  have h2 : char_to_int cs '\n' ∈ source.map (char_to_int cs) := List.mem_map_of_mem _ hmem
  rw [← h] at h2
  revert h2
  cases cs <;> decide

theorem scanner_at_start (cs : Bool) (source : List Char) :
    ∃ pre, scanner_at source (parse_start cs source).scanner pre := by
  unfold parse_start TokenScanner.create TokenScanner.skip_bom IniResult.create IniResult.view
  simp only
  split_ifs with h
  · refine ⟨source.take boms.length, rfl, by simp, ?_⟩
    have h0 := count_lf_of_bom cs source h
    have h1 : (source.take boms.length ++ source.drop boms.length).count '\n' = 0 := by
      rw [List.take_append_drop]; exact h0
    rw [List.count_append] at h1
    simp only
    omega
  · exact ⟨[], rfl, by simp, by simp⟩

theorem parse_str_of_iterations (cs : Bool) (source : List Char) (n : Nat) (st : ParseState)
    (h : parse_iterations n (parse_start cs source) = Except.ok (some st)) :
    parse_str cs source = parse_loop (st.scanner.cur.length + 1) st := by
  unfold parse_str
  apply parse_loop_of_iterations n _ _ _ h
  obtain ⟨pre, _, h2, _⟩ := scanner_at_start cs source
  have : source.length = pre.length + (parse_start cs source).scanner.cur.length := by
    conv_lhs => rw [h2]
    rw [List.length_append]
  omega

/-! ## The fuel of `next` and of `parse_str` is never exhausted -/

theorem scan_quoted_loop_fault (q : Char) (n : Nat) (l : List Char) (e : Fault)
    (h : TokenScanner.scan_quoted_loop q n l = Except.error e) :
    e = IniParseError "Unclosed string" n := by
  induction l generalizing e with
  | nil =>
    simp only [TokenScanner.scan_quoted_loop, Except.error.injEq] at h
    exact h.symm
  | cons c l ih =>
    rw [TokenScanner.scan_quoted_loop] at h
    split_ifs at h with hn hq
    · simp only [Except.error.injEq] at h
      exact h.symm
    · cases hl : TokenScanner.scan_quoted_loop q n l with
      | error e2 =>
        simp only [hl, Except.error.injEq] at h
        rw [← h]
        exact ih _ hl
      | ok p => simp [hl] at h

theorem scan_unquoted_loop_fault (n : Nat) (l : List Char) (e : Fault)
    (h : TokenScanner.scan_unquoted_loop n l = Except.error e) :
    e = IniParseError "Unclosed string" n := by
  induction l generalizing e with
  | nil =>
    simp only [TokenScanner.scan_unquoted_loop, Except.error.injEq] at h
    exact h.symm
  | cons c l ih =>
    rw [TokenScanner.scan_unquoted_loop] at h
    split_ifs at h with hterm
    cases hl : TokenScanner.scan_unquoted_loop n l with
    | error e2 =>
      simp only [hl, Except.error.injEq] at h
      rw [← h]
      exact ih _ hl
    | ok p => simp [hl] at h

theorem skip_comment_length (sc : TokenScanner) (c : Char) (rest : List Char)
    (h : sc.cur = c :: rest) : sc.skip_comment.cur.length ≤ rest.length := by
  obtain ⟨mid, h1, _⟩ := skip_comment_loop_spec rest sc.line_no
  simp only [TokenScanner.skip_comment, h, List.drop_succ_cons, List.drop_zero]
  have h2 : rest.length =
      mid.length + (TokenScanner.skip_comment_loop rest sc.line_no).1.length := by
    conv_lhs => rw [h1]
    rw [List.length_append]
  omega

theorem next_loop_fuel_suffices (fuel : Nat) :
    ∀ sc : TokenScanner, sc.cur.length < fuel →
      TokenScanner.next_loop fuel sc ≠ Except.error Fault.out_of_fuel := by
  induction fuel with
  | zero => intro sc h; omega
  | succ fuel ih =>
    intro sc hlen h
    rw [TokenScanner.next_loop] at h
    cases hc : sc.cur with
    | nil => simp [hc] at h
    | cons c rest =>
      rw [hc] at hlen
      simp only [List.length_cons] at hlen
      simp only [hc] at h
      split_ifs at h with hb hn hcm ho hcl he hq1 hq2
      · exact ih _ (by simp only; omega) h
      · exact ih _ (by simp only; omega) h
      · exact ih _ (by have := skip_comment_length sc c rest hc; omega) h
      · unfold TokenScanner.scan_quoted_string at h
        cases hl : TokenScanner.scan_quoted_loop '"' sc.line_no (sc.cur.drop 1) with
        | error e =>
          simp only [hl, Except.error.injEq] at h
          have := scan_quoted_loop_fault _ _ _ _ hl
          rw [h] at this
          simp [IniParseError] at this
        | ok p =>
          obtain ⟨t, r⟩ := p
          rw [hl] at h
          simp at h
      · unfold TokenScanner.scan_quoted_string at h
        cases hl : TokenScanner.scan_quoted_loop '\'' sc.line_no (sc.cur.drop 1) with
        | error e =>
          simp only [hl, Except.error.injEq] at h
          have := scan_quoted_loop_fault _ _ _ _ hl
          rw [h] at this
          simp [IniParseError] at this
        | ok p =>
          obtain ⟨t, r⟩ := p
          rw [hl] at h
          simp at h
      · unfold TokenScanner.scan_unquoted_word at h
        cases hl : TokenScanner.scan_unquoted_loop sc.line_no sc.cur with
        | error e =>
          simp only [hl, Except.error.injEq] at h
          have := scan_unquoted_loop_fault _ _ _ hl
          rw [h] at this
          simp [IniParseError] at this
        | ok p =>
          obtain ⟨t, r⟩ := p
          rw [hl] at h
          simp at h

theorem next_fuel_suffices (sc : TokenScanner) :
    sc.next ≠ Except.error Fault.out_of_fuel :=
  next_loop_fuel_suffices _ sc (Nat.lt_succ_self _)

theorem parse_iteration_fuel_suffices (st : ParseState) :
    parse_iteration st ≠ Except.error Fault.out_of_fuel := by
  intro h
  unfold parse_iteration at h
  cases h1 : st.scanner.next with
  | error e =>
    simp only [h1, Except.error.injEq] at h
    exact next_fuel_suffices _ (by rw [h1, h])
  | ok p1 =>
    obtain ⟨tok, sc1⟩ := p1
    simp only [h1] at h
    cases tok with
    | end_ => simp at h
    | closed_square_brace => simp [IniParseError] at h
    | equal => simp [IniParseError] at h
    | opened_square_brace =>
      simp only at h
      cases h2 : parse_section_name sc1 st.result with
      | ok p2 => simp [h2] at h
      | error e =>
        simp only [h2, Except.error.injEq] at h
        subst h
        unfold parse_section_name at h2
        cases h3 : sc1.next with
        | error e3 =>
          simp only [h3, Except.error.injEq] at h2
          exact next_fuel_suffices _ (by rw [h3, h2])
        | ok p3 =>
          obtain ⟨t3, sc3⟩ := p3
          simp only [h3] at h2
          split_ifs at h2 with ht3
          · simp [IniParseError] at h2
          · cases h4 : sc3.next with
            | error e4 =>
              simp only [h4, Except.error.injEq] at h2
              exact next_fuel_suffices _ (by rw [h4, h2])
            | ok p4 =>
              obtain ⟨t4, sc4⟩ := p4
              simp only [h4] at h2
              split_ifs at h2 with ht4
              simp [IniParseError] at h2
    | text =>
      simp only at h
      cases h2 : parse_property sc1 st.result st.section_iter with
      | ok p2 => simp [h2] at h
      | error e =>
        simp only [h2, Except.error.injEq] at h
        subst h
        unfold parse_property at h2
        cases h3 : sc1.next with
        | error e3 =>
          simp only [h3, Except.error.injEq] at h2
          exact next_fuel_suffices _ (by rw [h3, h2])
        | ok p3 =>
          obtain ⟨t3, sc3⟩ := p3
          simp only [h3] at h2
          split_ifs at h2 with ht3
          · simp [IniParseError] at h2
          · cases h4 : sc3.next with
            | error e4 =>
              simp only [h4, Except.error.injEq] at h2
              exact next_fuel_suffices _ (by rw [h4, h2])
            | ok p4 =>
              obtain ⟨t4, sc4⟩ := p4
              simp only [h4] at h2
              split_ifs at h2 with ht4
              · simp [IniParseError] at h2
              · cases hit : st.section_iter with
                | none => simp [hit, IniResult.insert_at] at h2
                | some name => simp [hit, IniResult.insert_at] at h2

theorem parse_loop_fuel_suffices (f : Nat) :
    ∀ st : ParseState, st.scanner.cur.length < f →
      parse_loop f st ≠ Except.error Fault.out_of_fuel := by
  induction f with
  | zero => intro st h; omega
  | succ f ih =>
    intro st hlen h
    rw [parse_loop] at h
    cases h1 : parse_iteration st with
    | error e =>
      simp only [h1, Except.error.injEq] at h
      exact parse_iteration_fuel_suffices st (by rw [h1, h])
    | ok o =>
      cases o with
      | none => simp [h1] at h
      | some st2 =>
        simp only [h1] at h
        have := parse_iteration_shorter st st2 h1
        exact ih st2 (by omega) h

theorem parse_str_fuel_suffices (cs : Bool) (source : List Char) :
    parse_str cs source ≠ Except.error Fault.out_of_fuel := by
  unfold parse_str
  apply parse_loop_fuel_suffices
  obtain ⟨pre, _, h2, _⟩ := scanner_at_start cs source
  have : source.length = pre.length + (parse_start cs source).scanner.cur.length := by
    conv_lhs => rw [h2]
    rw [List.length_append]
  omega

/-! ## Headers without `]`, and the start of the scan -/

theorem parse_iteration_missing_close (st : ParseState) (sc1 sc2 sc3 : TokenScanner)
    (tok : Token)
    (h1 : st.scanner.next = Except.ok (Token.opened_square_brace, sc1))
    (h2 : sc1.next = Except.ok (Token.text, sc2))
    (h3 : sc2.next = Except.ok (tok, sc3)) (htok : tok ≠ Token.closed_square_brace) :
    parse_iteration st = Except.error (IniParseError
      "invalid section name: missing close square brace" sc1.line_no) := by
  unfold parse_iteration
  simp only [h1]
  unfold parse_section_name
  simp [h2, h3, htok, TokenScanner.line_index]

theorem create_of_length_ne (cs : Bool) (source : List Char) (h : source.length ≠ 3) :
    TokenScanner.create cs source =
      { source := source, cur := source, line_no := 1, text := [] } := by
  unfold TokenScanner.create TokenScanner.skip_bom
  have hne : boms ≠ source.map (char_to_int cs) := by
    intro he
    have := congrArg List.length he
    simp only [List.length_map] at this
    exact h this.symm
  simp only
  rw [if_neg hne]

theorem create_of_head (cs : Bool) (c : Char) (rest : List Char)
    (h : char_to_int cs c ≠ 0xef) :
    TokenScanner.create cs (c :: rest) =
      { source := c :: rest, cur := c :: rest, line_no := 1, text := [] } := by
  unfold TokenScanner.create TokenScanner.skip_bom
  have hne : boms ≠ (c :: rest).map (char_to_int cs) := by
    intro he
    simp only [boms, List.map_cons, List.cons.injEq] at he
    exact h he.1.symm
  simp only
  rw [if_neg hne]

theorem next_line_feed (sc : TokenScanner) (rest : List Char) (h : sc.cur = '\n' :: rest) :
    sc.next = TokenScanner.next { sc with cur := rest, line_no := sc.line_no + 1 } := by
  rw [next_cons sc _ _ h]
  simp

theorem next_open (sc : TokenScanner) (rest : List Char) (h : sc.cur = '[' :: rest) :
    sc.next = Except.ok (Token.opened_square_brace, { sc with cur := rest }) := by
  rw [next_cons sc _ _ h]
  simp

theorem is_word_append_close (w : List Char) (hw : is_word w) : is_word (w ++ [']']) := by
  obtain ⟨hne, hterm, hob, hcb⟩ := hw
  cases w with
  | nil => exact absurd rfl hne
  | cons c w =>
    refine ⟨by simp, ?_, by simpa using hob, by simpa using hcb⟩
    intro d hd
    rcases List.mem_append.mp hd with hd | hd
    · exact hterm d hd
    · simp only [List.mem_singleton] at hd
      rw [hd]
      decide

/-- The defect behind C1 and C20 on every document of the shape `[s]\nk = v\n` with
unquoted words `s`, `k`, `v`: the text token behind `[` is `s]`, the token after it is the
text `k`, and `parse_str` throws at line 1. -/
theorem unquoted_header_always_rejected (cs : Bool) (s k v : List Char)
    (hs : is_word s) (hk : is_word k) :
    parse_str cs ('[' :: (s ++ ']' :: '\n' :: (k ++ ' ' :: '=' :: ' ' :: (v ++ ['\n'])))) =
      Except.error
        (Fault.thrown "invalid section name: missing close square brace at line 1") := by
  have hstart := create_of_head cs '['
    (s ++ ']' :: '\n' :: (k ++ ' ' :: '=' :: ' ' :: (v ++ ['\n']))) (by cases cs <;> decide)
  unfold parse_str
  rw [parse_loop]
  have hit := parse_iteration_missing_close
    (parse_start cs ('[' :: (s ++ ']' :: '\n' :: (k ++ ' ' :: '=' :: ' ' :: (v ++ ['\n'])))))
    { source := '[' :: (s ++ ']' :: '\n' :: (k ++ ' ' :: '=' :: ' ' :: (v ++ ['\n']))),
      cur := s ++ ']' :: '\n' :: (k ++ ' ' :: '=' :: ' ' :: (v ++ ['\n'])),
      line_no := 1, text := [] }
    { source := '[' :: (s ++ ']' :: '\n' :: (k ++ ' ' :: '=' :: ' ' :: (v ++ ['\n']))),
      cur := '\n' :: (k ++ ' ' :: '=' :: ' ' :: (v ++ ['\n'])),
      line_no := 1, text := s ++ [']'] }
    { source := '[' :: (s ++ ']' :: '\n' :: (k ++ ' ' :: '=' :: ' ' :: (v ++ ['\n']))),
      cur := ' ' :: '=' :: ' ' :: (v ++ ['\n']),
      line_no := 2, text := k }
    Token.text
    (by
      unfold parse_start IniResult.create IniResult.view
      simp only [hstart]
      exact next_open _ _ rfl)
    (next_word _ (s ++ [']']) '\n' _ (is_word_append_close s hs) (by decide) (by simp))
    (by
      rw [next_line_feed _ _ rfl]
      exact next_word _ k ' ' _ hk (by decide) rfl)
    (by decide)
  rw [hit]
  show (Except.error (IniParseError "invalid section name: missing close square brace" 1) :
    Except Fault IniResult) = _
  decide

/-! ## Whole documents -/

/-- C6: when `n` iterations of the loop of `parse_str` have run without error, the next
token is `[`, the token after it is a text and the third token is anything but `]`
(`end` included), then `parse_str` throws
`invalid section name: missing close square brace at line N`, where `N` is one more than
the number of line feeds in the text `pre` in front of that `[`. -/
theorem missing_close_brace_rejected (cs : Bool) (source : List Char) (n : Nat)
    (st : ParseState) (sc1 sc2 sc3 : TokenScanner) (tok : Token)
    (hreach : parse_iterations n (parse_start cs source) = Except.ok (some st))
    (h1 : st.scanner.next = Except.ok (Token.opened_square_brace, sc1))
    (h2 : sc1.next = Except.ok (Token.text, sc2))
    (h3 : sc2.next = Except.ok (tok, sc3)) (htok : tok ≠ Token.closed_square_brace) :
    ∃ pre, source = pre ++ '[' :: sc1.cur ∧
      parse_str cs source = Except.error (Fault.thrown (format_error_info
        "invalid section name: missing close square brace" (1 + pre.count '\n'))) := by
  obtain ⟨pre0, hat0⟩ := scanner_at_iterations source n _ st
    (scanner_at_start cs source).choose hreach (scanner_at_start cs source).choose_spec
  obtain ⟨mid, hcons, _, _, hopen⟩ := next_spec _ _ _ h1
  obtain ⟨m, hm⟩ := hopen rfl
  obtain ⟨_, hsrc, hline⟩ := scanner_at_consumed source _ _ pre0 mid hat0 hcons
  refine ⟨pre0 ++ m, ?_, ?_⟩
  · rw [hsrc, hm]
    simp
  · rw [parse_str_of_iterations cs source n st hreach, parse_loop]
    rw [parse_iteration_missing_close st sc1 sc2 sc3 tok h1 h2 h3 htok, hline, hm]
    simp [IniParseError, List.count_append]

/-- Witness of C6: the input of the specification (`[s` on line 1), and an input whose
unclosed header stands on line 3 behind a complete header. -/
theorem missing_close_brace_rejected_witness :
    (∃ pre, "[s\nk = v\n".toList = pre ++ '[' :: "s\nk = v\n".toList ∧
      parse_str true "[s\nk = v\n".toList = Except.error (Fault.thrown (format_error_info
        "invalid section name: missing close square brace" (1 + pre.count '\n')))) ∧
    (∃ pre, "[\"a\"]\n\n [s ".toList = pre ++ '[' :: "s ".toList ∧
      parse_str false "[\"a\"]\n\n [s ".toList = Except.error (Fault.thrown (format_error_info
        "invalid section name: missing close square brace" (1 + pre.count '\n')))) ∧
    parse_str true "[s\nk = v\n".toList = Except.error
      (Fault.thrown "invalid section name: missing close square brace at line 1") ∧
    parse_str false "[\"a\"]\n\n [s ".toList = Except.error
      (Fault.thrown "invalid section name: missing close square brace at line 3") :=
  ⟨missing_close_brace_rejected true "[s\nk = v\n".toList 0
      (parse_start true "[s\nk = v\n".toList)
      { source := "[s\nk = v\n".toList, cur := "s\nk = v\n".toList, line_no := 1, text := [] }
      { source := "[s\nk = v\n".toList, cur := "\nk = v\n".toList, line_no := 1,
        text := "s".toList }
      { source := "[s\nk = v\n".toList, cur := " = v\n".toList, line_no := 2,
        text := "k".toList }
      Token.text (by decide) (by decide) (by decide) (by decide) (by decide),
   missing_close_brace_rejected false "[\"a\"]\n\n [s ".toList 1
      { scanner := { source := "[\"a\"]\n\n [s ".toList, cur := "\n\n [s ".toList, line_no := 1,
                     text := "a".toList },
        result := { raw_content := "[\"a\"]\n\n [s ".toList, parsed_data := [("a".toList, [])] },
        section_iter := some "a".toList }
      { source := "[\"a\"]\n\n [s ".toList, cur := "s ".toList, line_no := 3,
        text := "a".toList }
      { source := "[\"a\"]\n\n [s ".toList, cur := " ".toList, line_no := 3,
        text := "s".toList }
      { source := "[\"a\"]\n\n [s ".toList, cur := [], line_no := 3, text := "s".toList }
      Token.end_ (by decide) (by decide) (by decide) (by decide) (by decide),
   by decide, by decide⟩

/-- C1, evaluated: on `[s]\nk = v\n` the word scanned behind `[` is `s]`, so `parse_str`
throws, whatever the signedness of `char`; the same happens on the first document of
`test_ini_parser` in `test.cpp`, on which the test asserts `contains("section1")`. -/
theorem bracketed_header_rejected :
    (∀ cs, parse_str cs "[s]\nk = v\n".toList = Except.error
      (Fault.thrown "invalid section name: missing close square brace at line 1")) ∧
    (TokenScanner.next
        { source := "[s]\nk = v\n".toList, cur := "s]\nk = v\n".toList, line_no := 1,
          text := [] } =
      Except.ok (Token.text,
        { source := "[s]\nk = v\n".toList, cur := "\nk = v\n".toList, line_no := 1,
          text := "s]".toList })) ∧
    (∀ cs, parse_str cs
        "\n[section1]\nkey1 = value1\nkey2 = 123\n\n[section2]\nkey3 = true\nkey4 = 3.14\n".toList =
      Except.error
        (Fault.thrown "invalid section name: missing close square brace at line 2")) := by
  refine ⟨by decide, by decide, by decide⟩

/-- C7, evaluated: on `k = v\n[s]\n` no `IniParseError` is thrown; `parse_property` reaches
`insert(section_iter, key, value)` with `section_iter == end(parsed_data)`. -/
theorem property_before_section_undefined :
    (∀ cs, parse_str cs "k = v\n[s]\n".toList = Except.error Fault.undefined_behaviour) ∧
    (∀ cs, parse_str cs "k\n[s]\n".toList = Except.error
      (Fault.thrown "expected equal after parameter name at line 2")) := by
  refine ⟨by decide, by decide⟩

/-- C9, evaluated: an unquoted word that runs to the end of the input makes `next` throw
`Unclosed string`; so does `parse_str` on a document whose last value has no terminator
behind it. -/
theorem unquoted_word_at_end_throws :
    (TokenScanner.next
        { source := "v".toList, cur := "v".toList, line_no := 1, text := [] } =
      Except.error (Fault.thrown "Unclosed string at line 1")) ∧
    (∀ cs, parse_str cs "[\"s\"]\nk = v".toList =
      Except.error (Fault.thrown "Unclosed string at line 2")) ∧
    (∀ cs, parse_str cs "[\"s\"]\nk = v\n".toList =
      Except.ok { raw_content := "[\"s\"]\nk = v\n".toList,
                  parsed_data := [("s".toList, [("k".toList, "v".toList)])] }) ∧
    (∀ cs, parse_str cs "[s]\nk = v".toList = Except.error
      (Fault.thrown "invalid section name: missing close square brace at line 1")) := by
  refine ⟨by decide, by decide, by decide, by decide⟩

/-- C10, evaluated: with the bytes EF BB BF in front of `["s"]\nk = v\n` the scanner
starts on the first of the three bytes and `parse_str` throws, while the same text without
them parses; `skip_bom` moves the cursor only when the whole input is the three bytes and
`char` is unsigned. -/
theorem bom_before_text_not_skipped :
    (∀ cs, parse_str cs
        (Char.ofNat 0xef :: Char.ofNat 0xbb :: Char.ofNat 0xbf :: "[\"s\"]\nk = v\n".toList) =
      Except.error (Fault.thrown "expected equal after parameter name at line 1")) ∧
    (∀ cs, parse_str cs "[\"s\"]\nk = v\n".toList =
      Except.ok { raw_content := "[\"s\"]\nk = v\n".toList,
                  parsed_data := [("s".toList, [("k".toList, "v".toList)])] }) ∧
    (∀ cs, (parse_str cs "[\"s\"]\nk = v\n".toList).toOption.bind
        (fun r => r.get "s".toList "k".toList) = some "v".toList) ∧
    (∀ cs, (TokenScanner.create cs
        (Char.ofNat 0xef :: Char.ofNat 0xbb :: Char.ofNat 0xbf :: " ".toList)).cur =
      Char.ofNat 0xef :: Char.ofNat 0xbb :: Char.ofNat 0xbf :: " ".toList) ∧
    (TokenScanner.create false [Char.ofNat 0xef, Char.ofNat 0xbb, Char.ofNat 0xbf]).cur = [] ∧
    (TokenScanner.create true [Char.ofNat 0xef, Char.ofNat 0xbb, Char.ofNat 0xbf]).cur =
      [Char.ofNat 0xef, Char.ofNat 0xbb, Char.ofNat 0xbf] := by
  refine ⟨by decide, by decide, by decide, by decide, by decide, by decide⟩

/-! ## The coercion layer and the query interface -/

theorem true_false_strings_disjoint (x : List Char) (h : x ∈ true_strings) :
    x ∉ false_strings := by
  simp only [true_strings, List.mem_cons, List.mem_singleton, List.not_mem_nil, or_false] at h
  rcases h with h | h | h | h <;> rw [h] <;> decide

theorem IniResult.get_as_eq_bind {α : Type} (f : StringView → Option α) (r : IniResult)
    (s k : StringView) : r.get_as f s k = (r.get s k).bind f := by
  unfold IniResult.get_as
  cases r.get s k <;> rfl

theorem IniResult.contains_key_iff_get (r : IniResult) (s k : StringView) :
    r.contains_key s k = true ↔ (r.get s k).isSome = true := by
  unfold IniResult.contains_key IniResult.get
  cases map_find r.parsed_data s with
  | none => simp
  | some sec => cases h2 : map_find sec k <;> simp [h2]

theorem IniResult.contains_of_contains_key (r : IniResult) (s k : StringView)
    (h : r.contains_key s k = true) : r.contains s = true := by
  unfold IniResult.contains_key at h
  unfold IniResult.contains
  cases hf : map_find r.parsed_data s with
  | none => simp [hf] at h
  | some sec => rfl

/-- C12: `string_to<bool>(v)` is `true` exactly when the lower-cased `v` is one of `true`,
`t`, `yes`, `y`, is `false` exactly when it is one of `false`, `f`, `no`, `n`, and has
no value exactly when it is none of the eight; `get<bool>` on a key that stores `v` gives
the same; the empty string, `1`, `0`, `123` and `truee` have no value, and upper case
is accepted. -/
theorem string_to_bool_exact :
    (∀ v : StringView,
      (IniResult.string_to_bool v = some true ↔
        (v.map tolower = "true".toList ∨ v.map tolower = "t".toList ∨
          v.map tolower = "yes".toList ∨ v.map tolower = "y".toList)) ∧
      (IniResult.string_to_bool v = some false ↔
        (v.map tolower = "false".toList ∨ v.map tolower = "f".toList ∨
          v.map tolower = "no".toList ∨ v.map tolower = "n".toList)) ∧
      (IniResult.string_to_bool v = none ↔
        ¬ (v.map tolower = "true".toList ∨ v.map tolower = "t".toList ∨
          v.map tolower = "yes".toList ∨ v.map tolower = "y".toList ∨
          v.map tolower = "false".toList ∨ v.map tolower = "f".toList ∨
          v.map tolower = "no".toList ∨ v.map tolower = "n".toList)) ∧
      (∀ (r : IniResult) (s k : StringView), r.get s k = some v →
        r.get_as IniResult.string_to_bool s k = IniResult.string_to_bool v)) ∧
    (∀ v w : StringView, v.map tolower = w.map tolower →
      IniResult.string_to_bool v = IniResult.string_to_bool w) ∧
    IniResult.string_to_bool "".toList = none ∧ IniResult.string_to_bool "1".toList = none ∧
    IniResult.string_to_bool "0".toList = none ∧ IniResult.string_to_bool "123".toList = none ∧
    IniResult.string_to_bool "truee".toList = none ∧
    IniResult.string_to_bool " yes".toList = none ∧
    IniResult.string_to_bool "TRUE".toList = some true ∧
    IniResult.string_to_bool "No".toList = some false := by
  refine ⟨fun v => ⟨?_, ?_, ?_, ?_⟩, ?_, by decide, by decide, by decide, by decide,
    by decide, by decide, by decide, by decide⟩
  · have e : v.map tolower ∈ true_strings ↔
        (v.map tolower = "true".toList ∨ v.map tolower = "t".toList ∨
          v.map tolower = "yes".toList ∨ v.map tolower = "y".toList) := by
      simp only [true_strings, List.mem_cons, List.mem_singleton, List.not_mem_nil, or_false]
    rw [← e]
    unfold IniResult.string_to_bool
    by_cases ht : v.map tolower ∈ true_strings
    · simp [ht]
    · by_cases hf : v.map tolower ∈ false_strings <;> simp [ht, hf]
  · have e : v.map tolower ∈ false_strings ↔
        (v.map tolower = "false".toList ∨ v.map tolower = "f".toList ∨
          v.map tolower = "no".toList ∨ v.map tolower = "n".toList) := by
      simp only [false_strings, List.mem_cons, List.mem_singleton, List.not_mem_nil, or_false]
    rw [← e]
    unfold IniResult.string_to_bool
    by_cases ht : v.map tolower ∈ true_strings
    · have hf := true_false_strings_disjoint _ ht
      simp [ht, hf]
    · by_cases hf : v.map tolower ∈ false_strings <;> simp [ht, hf]
  · have e : (v.map tolower ∈ true_strings ∨ v.map tolower ∈ false_strings) ↔
        (v.map tolower = "true".toList ∨ v.map tolower = "t".toList ∨
          v.map tolower = "yes".toList ∨ v.map tolower = "y".toList ∨
          v.map tolower = "false".toList ∨ v.map tolower = "f".toList ∨
          v.map tolower = "no".toList ∨ v.map tolower = "n".toList) := by
      simp only [true_strings, false_strings, List.mem_cons, List.mem_singleton,
        List.not_mem_nil, or_false, or_assoc]
    rw [← e]
    unfold IniResult.string_to_bool
    by_cases ht : v.map tolower ∈ true_strings
    · simp [ht]
    · by_cases hf : v.map tolower ∈ false_strings <;> simp [ht, hf]
  · intro r s k h
    rw [IniResult.get_as_eq_bind, h]
    rfl
  · intro v w h
    unfold IniResult.string_to_bool
    rw [h]

/-- C14: `get<T>(s, k)` is `get(s, k)` followed by `string_to<T>`, a value of an optional
type and never a thrown error: no value when the section or the key is absent, no value
when the coercion of the stored text fails, the coerced value otherwise; for `T = string`
it is the stored text whenever there is one. -/
theorem typed_get_is_get_then_coerce :
    (∀ (α : Type) (f : StringView → Option α) (r : IniResult) (s k : StringView),
      r.get_as f s k = (r.get s k).bind f ∧
      (r.contains s = false → r.get_as f s k = none) ∧
      (r.contains_key s k = false → r.get_as f s k = none) ∧
      (∀ v, r.get s k = some v → f v = none → r.get_as f s k = none) ∧
      (∀ v x, r.get s k = some v → f v = some x → r.get_as f s k = some x)) ∧
    (∀ (r : IniResult) (s k : StringView),
      r.get_as IniResult.string_to_string s k = r.get s k ∧
      r.get_as IniResult.string_to_bool s k = (r.get s k).bind IniResult.string_to_bool ∧
      r.get_as IniResult.string_to_int s k = (r.get s k).bind IniResult.string_to_int) := by
  refine ⟨fun α f r s k => ⟨IniResult.get_as_eq_bind f r s k, ?_, ?_, ?_, ?_⟩,
    fun r s k => ⟨?_, IniResult.get_as_eq_bind _ r s k, IniResult.get_as_eq_bind _ r s k⟩⟩
  · intro h
    have hk : r.contains_key s k ≠ true := by
      intro hk
      rw [IniResult.contains_of_contains_key r s k hk] at h
      exact Bool.noConfusion h
    rw [IniResult.get_as_eq_bind]
    cases hg : r.get s k with
    | none => rfl
    | some v =>
      exact absurd ((IniResult.contains_key_iff_get r s k).mpr (by rw [hg]; rfl)) hk
  · intro h
    rw [IniResult.get_as_eq_bind]
    cases hg : r.get s k with
    | none => rfl
    | some v =>
      have := (IniResult.contains_key_iff_get r s k).mpr (by rw [hg]; rfl)
      rw [h] at this
      exact Bool.noConfusion this
  · intro v hg hf
    rw [IniResult.get_as_eq_bind, hg]
    exact hf
  · intro v x hg hf
    rw [IniResult.get_as_eq_bind, hg]
    exact hf
  · rw [IniResult.get_as_eq_bind]
    cases r.get s k <;> rfl

/-! ## Integer coercion -/

theorem digit_value_of_digit (c : Char) (h : is_digit c) :
    digit_value c = some (c.toNat - '0'.toNat) := by
  unfold is_digit at h
  unfold digit_value
  rw [if_pos h]

theorem digit_value_of_not_digit (c : Char) (h : ¬ is_digit c) : digit_value c = none := by
  unfold is_digit at h
  unfold digit_value
  rw [if_neg h]

theorem decimal_number_nil : decimal_number [] = 0 := by
  simp [decimal_number]

theorem decimal_number_cons (c : Char) (ds : List Char) :
    decimal_number (c :: ds) = (c.toNat - '0'.toNat) * 10 ^ ds.length + decimal_number ds := by
  unfold decimal_number
  rw [List.reverse_cons, List.map_append, Nat.ofDigits_append]
  simp only [List.map_cons, List.map_nil, Nat.ofDigits_singleton, List.length_map,
    List.length_reverse]
  ring

theorem scan_digits_spec (l : List Char) :
    ∀ acc : Nat, ∃ ds, l = ds ++ (scan_digits l acc).2 ∧ (∀ c ∈ ds, is_digit c) ∧
      (scan_digits l acc).1 = acc * 10 ^ ds.length + decimal_number ds ∧
      (∀ c, (scan_digits l acc).2.head? = some c → ¬ is_digit c) := by
  induction l with
  | nil =>
    intro acc
    exact ⟨[], by simp [scan_digits], by simp, by simp [scan_digits, decimal_number_nil],
      by simp [scan_digits]⟩
  | cons c l ih =>
    intro acc
    by_cases hc : is_digit c
    · obtain ⟨ds, h1, h2, h3, h4⟩ := ih (10 * acc + (c.toNat - '0'.toNat))
      simp only [scan_digits, digit_value_of_digit c hc]
      refine ⟨c :: ds, by rw [List.cons_append, ← h1], ?_, ?_, h4⟩
      · intro d hd
        rcases List.mem_cons.mp hd with hd | hd
        · rw [hd]; exact hc
        · exact h2 d hd
      · rw [h3, decimal_number_cons, List.length_cons]
        ring
    · simp only [scan_digits, digit_value_of_not_digit c hc]
      refine ⟨[], by simp, by simp, by simp [decimal_number_nil], ?_⟩
      intro d hd
      simp only [List.head?_cons, Option.some.injEq] at hd
      rw [← hd]
      exact hc

theorem scan_digits_all (ds : List Char) (h : ∀ c ∈ ds, is_digit c) :
    ∀ acc : Nat, scan_digits ds acc = (acc * 10 ^ ds.length + decimal_number ds, []) := by
  induction ds with
  | nil =>
    intro acc
    simp [scan_digits, decimal_number_nil]
  | cons c ds ih =>
    intro acc
    have hc : is_digit c := h c (by simp)
    simp only [scan_digits, digit_value_of_digit c hc]
    rw [ih (fun d hd => h d (by simp [hd])), decimal_number_cons, List.length_cons]
    congr 1
    ring

theorem from_chars_of_body (first body : List Char) (negative : Bool)
    (hn : decide (first.head? = some '-') = negative)
    (hb : body = if negative then first.drop 1 else first) (value : Int) :
    from_chars first value =
      if (scan_digits body 0).2.length = body.length then
        ({ ptr := first, ec := errc.invalid_argument }, value)
      else if INT_MIN ≤ (if negative then -((scan_digits body 0).1 : Int)
            else ((scan_digits body 0).1 : Int)) ∧
          (if negative then -((scan_digits body 0).1 : Int)
            else ((scan_digits body 0).1 : Int)) ≤ INT_MAX then
        ({ ptr := (scan_digits body 0).2, ec := errc.success },
          if negative then -((scan_digits body 0).1 : Int) else ((scan_digits body 0).1 : Int))
      else ({ ptr := (scan_digits body 0).2, ec := errc.result_out_of_range }, value) := by
  unfold from_chars
  simp only [hn, ← hb]

theorem string_to_int_of_body (v body : List Char) (negative : Bool)
    (hn : decide (v.head? = some '-') = negative)
    (hb : body = if negative then v.drop 1 else v) (z : Int) :
    IniResult.string_to_int v = some z ↔
      (scan_digits body 0).2 = [] ∧ body ≠ [] ∧
        z = (if negative then -((scan_digits body 0).1 : Int)
          else ((scan_digits body 0).1 : Int)) ∧ INT_MIN ≤ z ∧ z ≤ INT_MAX := by
  unfold IniResult.string_to_int
  rw [from_chars_of_body v body negative hn hb 0]
  generalize (if negative = true then -((scan_digits body 0).1 : Int)
    else ((scan_digits body 0).1 : Int)) = number
  by_cases h1 : (scan_digits body 0).2.length = body.length
  · rw [if_pos h1]
    constructor
    · intro h
      simp at h
    · rintro ⟨h2, h3, _⟩
      rw [h2] at h1
      exact absurd (List.length_eq_zero.mp h1.symm) h3
  · rw [if_neg h1]
    have hbody : body ≠ [] := by
      intro hb0
      rw [hb0] at h1
      simp [scan_digits] at h1
    by_cases h2 : INT_MIN ≤ number ∧ number ≤ INT_MAX
    · rw [if_pos h2]
      by_cases h3 : (scan_digits body 0).2 = []
      · simp only [h3, ne_eq, not_true_eq_false, or_self, if_false, Option.some.injEq]
        constructor
        · intro h
          subst h
          exact ⟨trivial, hbody, rfl, h2.1, h2.2⟩
        · rintro ⟨_, _, hz, _⟩
          exact hz.symm
      · simp [h3]
    · rw [if_neg h2]
      constructor
      · intro h
        simp at h
      · rintro ⟨_, _, hz, hlo, hhi⟩
        rw [hz] at hlo hhi
        exact absurd ⟨hlo, hhi⟩ h2

/-- C13: `string_to<int>(v)` has the value `z` exactly when `v` is an optional `-` followed
by one or more decimal digits, the number denoted is `z` and `z` fits in a 32-bit signed
`int`; `get<int>` on a key that stores `v` gives the same; a trailing character, white
space in front or behind, a leading `+`, the empty string, a lone `-` and a number out of
range give no value. -/
theorem string_to_int_exact :
    (∀ (v : StringView) (z : Int),
      IniResult.string_to_int v = some z ↔
        ∃ (negative : Bool) (digits : List Char), digits ≠ [] ∧ (∀ c ∈ digits, is_digit c) ∧
          v = (if negative then ['-'] else []) ++ digits ∧
          z = (if negative then -(decimal_number digits : Int)
            else (decimal_number digits : Int)) ∧
          -2147483648 ≤ z ∧ z ≤ 2147483647) ∧
    (∀ (r : IniResult) (s k v : StringView), r.get s k = some v →
      r.get_as IniResult.string_to_int s k = IniResult.string_to_int v) ∧
    IniResult.string_to_int "123".toList = some 123 ∧
    IniResult.string_to_int "-42".toList = some (-42) ∧
    IniResult.string_to_int "123abc".toList = none ∧
    IniResult.string_to_int " 123".toList = none ∧
    IniResult.string_to_int "123 ".toList = none ∧
    IniResult.string_to_int "+123".toList = none ∧
    IniResult.string_to_int "".toList = none ∧
    IniResult.string_to_int "-".toList = none ∧
    IniResult.string_to_int "2147483647".toList = some 2147483647 ∧
    IniResult.string_to_int "2147483648".toList = none ∧
    IniResult.string_to_int "-2147483648".toList = some (-2147483648) ∧
    IniResult.string_to_int "-2147483649".toList = none := by
  refine ⟨fun v z => ⟨?_, ?_⟩, ?_, by decide, by decide, by decide, by decide, by decide,
    by decide, by decide, by decide, by decide, by decide, by decide, by decide⟩
  · intro h
    have hb := (string_to_int_of_body v _ (decide (v.head? = some '-')) rfl rfl z).mp h
    obtain ⟨h1, h2, h3, h4, h5⟩ := hb
    obtain ⟨ds, g1, g2, g3, _⟩ :=
      scan_digits_spec (if decide (v.head? = some '-') = true then v.drop 1 else v) 0
    rw [h1, List.append_nil] at g1
    refine ⟨decide (v.head? = some '-'), ds, by rw [← g1]; exact h2, g2, ?_, ?_, h4, h5⟩
    · by_cases hn : v.head? = some '-'
      · cases v with
        | nil => simp at hn
        | cons c rest =>
          simp only [List.head?_cons, Option.some.injEq] at hn
          subst hn
          simp only [List.head?_cons, decide_True, if_true, List.drop_succ_cons,
            List.drop_zero] at g1
          simp [g1]
      · simp only [hn, decide_False, Bool.false_eq_true, if_false] at g1
        simp only [hn, decide_False, Bool.false_eq_true, if_false, List.nil_append]
        exact g1
    · rw [h3, g3]
      simp
  · rintro ⟨negative, digits, hne, hd, hv, hz, hlo, hhi⟩
    have hn : decide (v.head? = some '-') = negative := by
      cases negative with
      | true =>
        simp only [if_true] at hv
        rw [hv]
        rfl
      | false =>
        simp only [Bool.false_eq_true, if_false, List.nil_append] at hv
        cases digits with
        | nil => exact absurd rfl hne
        | cons c ds =>
          have hc : is_digit c := hd c (by simp)
          rw [hv]
          simp only [List.head?_cons, Option.some.injEq, decide_eq_false_iff_not]
          intro hcm
          rw [hcm] at hc
          revert hc
          decide
    have hbody : digits = if negative = true then v.drop 1 else v := by
      cases negative with
      | true =>
        simp only [if_true] at hv ⊢
        rw [hv]
        rfl
      | false =>
        simp only [Bool.false_eq_true, if_false, List.nil_append] at hv ⊢
        exact hv.symm
    refine (string_to_int_of_body v digits negative hn hbody z).mpr ?_
    rw [scan_digits_all digits hd 0]
    refine ⟨rfl, hne, ?_, hlo, hhi⟩
    rw [hz]
    simp
  · intro r s k v h
    rw [IniResult.get_as_eq_bind, h]
    rfl

/-! ## Documents built by updates -/

theorem contains_apply_update (r : IniResult) (op : Update) (s : StringView)
    (h : r.contains s = false) (hop : op ≠ Update.header s) :
    (apply_update r op).contains s = false := by
  cases op with
  | header n =>
    have hn : ¬ n = s := fun e => hop (by rw [e])
    unfold IniResult.contains at h ⊢
    simp only [apply_update, IniResult.insert, map_find_try_emplace, if_neg hn]
    exact h
  | property n k v =>
    unfold IniResult.contains at h ⊢
    simp only [apply_update, IniResult.insert_at, map_find_modify]
    by_cases hn : n = s
    · subst hn
      cases hf : map_find r.parsed_data n with
      | none => simp
      | some sec => simp [hf] at h
    · simp only [if_neg hn]
      exact h

theorem get_apply_update (r : IniResult) (op : Update) (s k : StringView)
    (h : r.get s k = none) (hop : ∀ v, op ≠ Update.property s k v) :
    (apply_update r op).get s k = none := by
  cases op with
  | header n =>
    simp only [apply_update]
    rw [IniResult.get_insert]
    exact h
  | property n k2 v =>
    unfold IniResult.get at h ⊢
    simp only [apply_update, IniResult.insert_at, map_find_modify]
    by_cases hn : n = s
    · subst hn
      simp only [if_true]
      cases hf : map_find r.parsed_data n with
      | none => simp
      | some sec =>
        have hk : ¬ k2 = k := fun e => hop v (by rw [e])
        simp only [hf] at h
        simp only [Option.map_some', map_find_insert_or_assign, if_neg hk]
        exact h
    · simp only [if_neg hn]
      exact h

theorem contains_apply_updates (ops : List Update) (s : StringView) :
    ∀ r : IniResult, r.contains s = false → (∀ op ∈ ops, op ≠ Update.header s) →
      (apply_updates r ops).contains s = false := by
  induction ops with
  | nil => intro r h _; exact h
  | cons op ops ih =>
    intro r h hops
    unfold apply_updates
    rw [List.foldl_cons]
    exact ih _ (contains_apply_update r op s h (hops op (by simp)))
      (fun o ho => hops o (by simp [ho]))

theorem get_apply_updates (ops : List Update) (s k : StringView) :
    ∀ r : IniResult, r.get s k = none → (∀ op ∈ ops, ∀ v, op ≠ Update.property s k v) →
      (apply_updates r ops).get s k = none := by
  induction ops with
  | nil => intro r h _; exact h
  | cons op ops ih =>
    intro r h hops
    unfold apply_updates
    rw [List.foldl_cons]
    exact ih _ (get_apply_update r op s k h (hops op (by simp)))
      (fun o ho => hops o (by simp [ho]))

theorem IniResult.contains_key_false_of_get (r : IniResult) (s k : StringView)
    (h : r.get s k = none) : r.contains_key s k = false := by
  cases hc : r.contains_key s k with
  | false => rfl
  | true =>
    have := (IniResult.contains_key_iff_get r s k).mp hc
    rw [h] at this
    exact Bool.noConfusion this

/-- C15: `contains(s, k)` holds exactly when `get(s, k)` has a value, and implies
`contains(s)`; in a document built from the empty one by the updates of the parser,
a section for which no header was processed is not contained and has no keys, and a key
that was never inserted into a section is not contained there and has no value. -/
theorem contains_agrees_with_get :
    (∀ (r : IniResult) (s k : StringView),
      (r.contains_key s k = true ↔ ∃ v, r.get s k = some v) ∧
      (r.contains_key s k = true → r.contains s = true)) ∧
    (∀ (raw : List Char) (ops : List Update) (s k : StringView),
      ((∀ op ∈ ops, op ≠ Update.header s) →
        (apply_updates (IniResult.create raw) ops).contains s = false ∧
        (apply_updates (IniResult.create raw) ops).contains_key s k = false ∧
        (apply_updates (IniResult.create raw) ops).get s k = none) ∧
      ((∀ op ∈ ops, ∀ v, op ≠ Update.property s k v) →
        (apply_updates (IniResult.create raw) ops).contains_key s k = false ∧
        (apply_updates (IniResult.create raw) ops).get s k = none)) := by
  refine ⟨fun r s k => ⟨?_, IniResult.contains_of_contains_key r s k⟩,
    fun raw ops s k => ⟨?_, ?_⟩⟩
  · rw [IniResult.contains_key_iff_get, Option.isSome_iff_exists]
  · intro h
    have hc := contains_apply_updates ops s (IniResult.create raw) rfl h
    have hk : (apply_updates (IniResult.create raw) ops).contains_key s k = false := by
      cases hck : (apply_updates (IniResult.create raw) ops).contains_key s k with
      | false => rfl
      | true =>
        rw [IniResult.contains_of_contains_key _ s k hck] at hc
        exact Bool.noConfusion hc
    refine ⟨hc, hk, ?_⟩
    cases hg : (apply_updates (IniResult.create raw) ops).get s k with
    | none => rfl
    | some v =>
      have := (IniResult.contains_key_iff_get _ s k).mpr (by rw [hg]; rfl)
      rw [hk] at this
      exact Bool.noConfusion this
  · intro h
    have hg := get_apply_updates ops s k (IniResult.create raw) rfl h
    exact ⟨IniResult.contains_key_false_of_get _ s k hg, hg⟩

/-! ## The fuel of `next` does not matter -/

theorem next_loop_fuel (f : Nat) :
    ∀ (g : Nat) (sc : TokenScanner), sc.cur.length < f → sc.cur.length < g →
      TokenScanner.next_loop f sc = TokenScanner.next_loop g sc := by
  induction f with
  | zero => intro g sc h; omega
  | succ f ih =>
    intro g sc hf hg
    cases g with
    | zero => omega
    | succ g =>
      rw [TokenScanner.next_loop, TokenScanner.next_loop]
      cases hc : sc.cur with
      | nil => rfl
      | cons c rest =>
        rw [hc] at hf hg
        simp only [List.length_cons] at hf hg
        simp only
        split_ifs with hb hn hcm
        · exact ih g _ (by simp only; omega) (by simp only; omega)
        · exact ih g _ (by simp only; omega) (by simp only; omega)
        · have := skip_comment_length sc c rest hc
          exact ih g _ (by omega) (by omega)
        all_goals rfl

theorem next_loop_eq_next (f : Nat) (sc : TokenScanner) (h : sc.cur.length < f) :
    TokenScanner.next_loop f sc = sc.next :=
  next_loop_fuel f _ sc h (Nat.lt_succ_self _)

theorem skip_comment_loop_line (c r : List Char) (n : Nat) (hc : ∀ x ∈ c, x ≠ '\n') :
    TokenScanner.skip_comment_loop (c ++ '\n' :: r) n = (r, n + 1) := by
  induction c with
  | nil => simp [TokenScanner.skip_comment_loop]
  | cons x c ih =>
    have hx : x ≠ '\n' := hc x (by simp)
    rw [List.cons_append, TokenScanner.skip_comment_loop, if_neg hx]
    exact ih (fun y hy => hc y (by simp [hy]))

theorem skip_comment_loop_eof (c : List Char) (n : Nat) (hc : ∀ x ∈ c, x ≠ '\n') :
    TokenScanner.skip_comment_loop c n = ([], n) := by
  induction c with
  | nil => simp [TokenScanner.skip_comment_loop]
  | cons x c ih =>
    have hx : x ≠ '\n' := hc x (by simp)
    rw [TokenScanner.skip_comment_loop, if_neg hx]
    exact ih (fun y hy => hc y (by simp [hy]))

theorem next_comment (sc : TokenScanner) (m : Char) (c r : List Char)
    (hm : m = '#' ∨ m = ';') (hc : ∀ x ∈ c, x ≠ '\n') (h : sc.cur = m :: (c ++ '\n' :: r)) :
    sc.next = TokenScanner.next { sc with cur := r, line_no := sc.line_no + 1 } := by
  have hnb : ¬ (m = ' ' ∨ m = '\t' ∨ m = '\r') := by
    rcases hm with hm | hm <;> rw [hm] <;> decide
  have hnl : ¬ m = '\n' := by
    rcases hm with hm | hm <;> rw [hm] <;> decide
  rw [next_cons sc m _ h, if_neg hnb, if_neg hnl, if_pos hm]
  have hs : sc.skip_comment = { sc with cur := r, line_no := sc.line_no + 1 } := by
    simp only [TokenScanner.skip_comment, h, List.drop_succ_cons, List.drop_zero,
      skip_comment_loop_line c r sc.line_no hc]
  rw [hs]
  apply next_loop_eq_next
  simp only [List.length_append, List.length_cons]
  omega

theorem next_comment_eof (sc : TokenScanner) (m : Char) (c : List Char)
    (hm : m = '#' ∨ m = ';') (hc : ∀ x ∈ c, x ≠ '\n') (h : sc.cur = m :: c) :
    sc.next = Except.ok (Token.end_, { sc with cur := [] }) := by
  have hnb : ¬ (m = ' ' ∨ m = '\t' ∨ m = '\r') := by
    rcases hm with hm | hm <;> rw [hm] <;> decide
  have hnl : ¬ m = '\n' := by
    rcases hm with hm | hm <;> rw [hm] <;> decide
  rw [next_cons sc m _ h, if_neg hnb, if_neg hnl, if_pos hm]
  have hs : sc.skip_comment = { sc with cur := [] } := by
    simp only [TokenScanner.skip_comment, h, List.drop_succ_cons, List.drop_zero,
      skip_comment_loop_eof c sc.line_no hc]
  rw [hs, TokenScanner.next_loop]

/-! ## Comments -/

theorem parse_property_value (sc : TokenScanner) (res : IniResult)
    (s v a b r : List Char) (t : Char)
    (hs : res.contains s = true) (hv : is_word v)
    (ha : ∀ c ∈ a, is_blank c) (hb : ∀ c ∈ b, is_blank c) (ht : is_terminator t)
    (h : sc.cur = a ++ '=' :: (b ++ (v ++ t :: r))) :
    ∃ res2, parse_property sc res (some s) =
        Except.ok ({ sc with cur := t :: r, text := v }, res2) ∧
      res2.get s sc.text_view = some v := by
  have e1 : sc.next =
      Except.ok (Token.equal, { sc with cur := b ++ (v ++ t :: r) }) := by
    rw [next_skip_blanks sc a _ ha h]
    exact next_assign _ _ rfl
  have e2 : TokenScanner.next { sc with cur := b ++ (v ++ t :: r) } =
      Except.ok (Token.text, { sc with cur := t :: r, text := v }) := by
    rw [next_skip_blanks _ b (v ++ t :: r) hb rfl]
    exact next_word _ v t r hv ht rfl
  obtain ⟨r2, hr2, hget, _⟩ :=
    IniResult.get_insert_at res s sc.text_view v s sc.text_view hs
  refine ⟨r2, ?_, by simpa using hget⟩
  unfold parse_property
  simp only [e1, e2, TokenScanner.text_view] at *
  simp [hr2]

theorem is_terminator_of_blank (c : Char) (h : is_blank c) : is_terminator c := by
  unfold is_blank at h
  unfold is_terminator
  rcases h with h | h | h
  · exact Or.inl h
  · exact Or.inr (Or.inl h)
  · exact Or.inr (Or.inr (Or.inl h))

/-- C11: for a marker `m` (`#` or `;`) and a comment body `c` without line feed, `next`
on the remaining input `m ++ c ++ "\n" ++ r` at line `n` gives the very result (token,
text, cursor, line number, or error) that `next` gives on `r` at line `n + 1`; on `m ++ c`
it returns `end` at line `n` with the cursor at the end; and a comment behind a value,
`a = b v ws m c "\n" r`, leaves `v` as the stored value and is skipped by the call of
`next` that follows. -/
theorem comment_skipped_to_line_end (sc : TokenScanner) (m : Char) (c r : List Char)
    (hm : m = '#' ∨ m = ';') (hc : ∀ x ∈ c, x ≠ '\n') :
    (sc.cur = m :: (c ++ '\n' :: r) →
      sc.next = TokenScanner.next { sc with cur := r, line_no := sc.line_no + 1 }) ∧
    (sc.cur = m :: c → sc.next = Except.ok (Token.end_, { sc with cur := [] })) ∧
    (∀ (res : IniResult) (s v a b ws : List Char), res.contains s = true → is_word v →
      (∀ x ∈ a, is_blank x) → (∀ x ∈ b, is_blank x) → (∀ x ∈ ws, is_blank x) →
      sc.cur = a ++ '=' :: (b ++ (v ++ (ws ++ m :: (c ++ '\n' :: r)))) →
      ∃ sc2 res2, parse_property sc res (some s) = Except.ok (sc2, res2) ∧
        res2.get s sc.text_view = some v ∧ sc2.text_view = v ∧
        sc2.next = TokenScanner.next { sc2 with cur := r, line_no := sc2.line_no + 1 }) := by
  refine ⟨next_comment sc m c r hm hc, next_comment_eof sc m c hm hc, ?_⟩
  intro res s v a b ws hs hv ha hb hws h
  have hmt : is_terminator m := by
    unfold is_terminator
    rcases hm with hm | hm <;> simp [hm]
  cases ws with
  | nil =>
    obtain ⟨res2, h1, h2⟩ := parse_property_value sc res s v a b _ m hs hv ha hb hmt h
    exact ⟨_, res2, h1, h2, rfl, next_comment _ m c r hm hc rfl⟩
  | cons w ws =>
    have hwt : is_terminator w := is_terminator_of_blank w (hws w (by simp))
    obtain ⟨res2, h1, h2⟩ := parse_property_value sc res s v a b _ w hs hv ha hb hwt h
    refine ⟨_, res2, h1, h2, rfl, ?_⟩
    rw [next_skip_blanks _ (w :: ws) (m :: (c ++ '\n' :: r)) hws rfl]
    exact next_comment _ m c r hm hc rfl

/-- Witness of C11 on the line `key = value ; inline comment` of `test.cpp`. -/
theorem comment_skipped_to_line_end_witness :
    (∀ x ∈ " inline comment".toList, x ≠ '\n') ∧
    TokenScanner.next
        { source := "key = value ; inline comment\n k2".toList,
          cur := "; inline comment\n k2".toList, line_no := 5, text := "value".toList } =
      TokenScanner.next
        { source := "key = value ; inline comment\n k2".toList,
          cur := " k2".toList, line_no := 6, text := "value".toList } ∧
    (∃ sc2 res2,
      parse_property
        { source := "key = value ; inline comment\n k2".toList,
          cur := " = value ; inline comment\n k2".toList, line_no := 5, text := "key".toList }
        { raw_content := "key = value ; inline comment\n k2".toList,
          parsed_data := [("section".toList, [])] }
        (some "section".toList) = Except.ok (sc2, res2) ∧
      res2.get "section".toList "key".toList = some "value".toList ∧
      sc2.text_view = "value".toList ∧
      sc2.next = TokenScanner.next { sc2 with cur := " k2".toList, line_no := sc2.line_no + 1 }) :=
  ⟨by decide,
   (comment_skipped_to_line_end
      { source := "key = value ; inline comment\n k2".toList,
        cur := "; inline comment\n k2".toList, line_no := 5, text := "value".toList }
      ';' " inline comment".toList " k2".toList (Or.inr rfl) (by decide)).1 rfl,
   (comment_skipped_to_line_end
      { source := "key = value ; inline comment\n k2".toList,
        cur := " = value ; inline comment\n k2".toList, line_no := 5, text := "key".toList }
      ';' " inline comment".toList " k2".toList (Or.inr rfl) (by decide)).2.2
      { raw_content := "key = value ; inline comment\n k2".toList,
        parsed_data := [("section".toList, [])] }
      "section".toList "value".toList " ".toList " ".toList " ".toList
      (by decide) (by decide) (by decide) (by decide) (by decide) rfl⟩

/-! ## Where a token stands in the input -/

theorem scanned_skip (sc sc1 sc2 : TokenScanner) (tok : Token) (pre skipped chars : List Char)
    (h1 : sc.cur = pre ++ sc1.cur) (h2 : sc1.line_no = sc.line_no + pre.count '\n')
    (h3 : sc1.source = sc.source) (h : scanned sc1 sc2 tok skipped chars) :
    scanned sc sc2 tok (pre ++ skipped) chars := by
  obtain ⟨g1, g2, g3, g4, g5, g6⟩ := h
  refine ⟨by rw [h1, g1, List.append_assoc], by rw [g2, h3], ?_, g4, g5, g6⟩
  rw [g3, h2, List.count_append]
  omega

theorem scanned_consumed (sc sc2 : TokenScanner) (tok : Token) (skipped chars : List Char)
    (h : scanned sc sc2 tok skipped chars) : consumed sc sc2 (skipped ++ chars) := by
  obtain ⟨g1, g2, g3, g4, _, _⟩ := h
  refine ⟨by rw [g1, List.append_assoc], ?_, g2⟩
  rw [g3, List.count_append, g4]
  rfl

theorem next_loop_scanned (fuel : Nat) :
    ∀ (sc : TokenScanner) (tok : Token) (sc2 : TokenScanner),
      TokenScanner.next_loop fuel sc = Except.ok (tok, sc2) →
      ∃ skipped chars, scanned sc sc2 tok skipped chars := by
  induction fuel with
  | zero =>
    intro sc tok sc2 h
    simp [TokenScanner.next_loop] at h
  | succ fuel ih =>
    intro sc tok sc2 h
    rw [TokenScanner.next_loop] at h
    cases hc : sc.cur with
    | nil =>
      simp only [hc, Except.ok.injEq, Prod.mk.injEq] at h
      obtain ⟨rfl, rfl⟩ := h
      exact ⟨[], [], by simp [hc], rfl, by simp, by simp, rfl, fun _ => hc⟩
    | cons c rest =>
      simp only [hc] at h
      split_ifs at h with hb hn hcm ho hcl he hq1 hq2
      · obtain ⟨skipped, chars, hs⟩ := ih _ _ _ h
        have hlf : [c].count '\n' = 0 := by
          rcases hb with hb | hb | hb <;> rw [hb] <;> decide
        exact ⟨[c] ++ skipped, chars,
          scanned_skip sc { sc with cur := rest } sc2 tok [c] skipped chars (by simp [hc])
            (by simp [hlf]) rfl hs⟩
      · obtain ⟨skipped, chars, hs⟩ := ih _ _ _ h
        have hlf : [c].count '\n' = 1 := by rw [hn]; decide
        exact ⟨[c] ++ skipped, chars,
          scanned_skip sc { sc with cur := rest, line_no := sc.line_no + 1 } sc2 tok [c]
            skipped chars (by simp [hc]) (by simp [hlf]) rfl hs⟩
      · obtain ⟨skipped, chars, hs⟩ := ih _ _ _ h
        obtain ⟨mc, hm1, hm2⟩ := skip_comment_loop_spec rest sc.line_no
        refine ⟨(c :: mc) ++ skipped, chars,
          scanned_skip sc sc.skip_comment sc2 tok (c :: mc) skipped chars ?_ ?_ rfl hs⟩
        · simp only [TokenScanner.skip_comment, hc, List.drop_succ_cons, List.drop_zero,
            List.cons_append]
          rw [← hm1]
        · simp only [TokenScanner.skip_comment, hc, List.drop_succ_cons, List.drop_zero]
          rw [hm2, List.count_cons_of_ne (fun h => hn h.symm)]
      · simp only [Except.ok.injEq, Prod.mk.injEq] at h
        obtain ⟨rfl, rfl⟩ := h
        exact ⟨[], [c], by simp [hc], rfl, by simp,
          by simp [List.count_cons_of_ne (fun h => hn h.symm)], by rw [ho]; rfl, by simp⟩
      · simp only [Except.ok.injEq, Prod.mk.injEq] at h
        obtain ⟨rfl, rfl⟩ := h
        exact ⟨[], [c], by simp [hc], rfl, by simp,
          by simp [List.count_cons_of_ne (fun h => hn h.symm)], by rw [hcl]; rfl, by simp⟩
      · simp only [Except.ok.injEq, Prod.mk.injEq] at h
        obtain ⟨rfl, rfl⟩ := h
        exact ⟨[], [c], by simp [hc], rfl, by simp,
          by simp [List.count_cons_of_ne (fun h => hn h.symm)], by rw [he]; rfl, by simp⟩
      · unfold TokenScanner.scan_quoted_string at h
        simp only [hc, List.drop_succ_cons, List.drop_zero] at h
        cases hl : TokenScanner.scan_quoted_loop '"' sc.line_no rest with
        | error e => simp [hl] at h
        | ok p =>
          obtain ⟨t, r⟩ := p
          simp only [hl, Except.ok.injEq, Prod.mk.injEq] at h
          obtain ⟨rfl, rfl⟩ := h
          obtain ⟨h1, h2, h3⟩ := scan_quoted_loop_spec _ _ _ _ _ hl
          refine ⟨[], c :: (t ++ ['"']), by simp [hc, h1], rfl, by simp, ?_, ?_, by simp⟩
          · rw [List.count_cons_of_ne (fun h => hn h.symm), List.count_append, h2]
            simp
          · refine Or.inr ⟨'"', Or.inl rfl, by rw [hq1], ?_⟩
            intro d hd
            constructor
            · intro hdq
              rw [hdq] at hd
              exact (List.count_eq_zero.mp h3) hd
            · intro hdn
              rw [hdn] at hd
              exact (List.count_eq_zero.mp h2) hd
      · unfold TokenScanner.scan_quoted_string at h
        simp only [hc, List.drop_succ_cons, List.drop_zero] at h
        cases hl : TokenScanner.scan_quoted_loop '\'' sc.line_no rest with
        | error e => simp [hl] at h
        | ok p =>
          obtain ⟨t, r⟩ := p
          simp only [hl, Except.ok.injEq, Prod.mk.injEq] at h
          obtain ⟨rfl, rfl⟩ := h
          obtain ⟨h1, h2, h3⟩ := scan_quoted_loop_spec _ _ _ _ _ hl
          refine ⟨[], c :: (t ++ ['\'']), by simp [hc, h1], rfl, by simp, ?_, ?_, by simp⟩
          · rw [List.count_cons_of_ne (fun h => hn h.symm), List.count_append, h2]
            simp
          · refine Or.inr ⟨'\'', Or.inr rfl, by rw [hq2], ?_⟩
            intro d hd
            constructor
            · intro hdq
              rw [hdq] at hd
              exact (List.count_eq_zero.mp h3) hd
            · intro hdn
              rw [hdn] at hd
              exact (List.count_eq_zero.mp h2) hd
      · unfold TokenScanner.scan_unquoted_word at h
        simp only [hc] at h
        cases hl : TokenScanner.scan_unquoted_loop sc.line_no (c :: rest) with
        | error e => simp [hl] at h
        | ok p =>
          obtain ⟨t, r⟩ := p
          simp only [hl, Except.ok.injEq, Prod.mk.injEq] at h
          obtain ⟨rfl, rfl⟩ := h
          obtain ⟨h1, h2, _⟩ := scan_unquoted_loop_spec _ _ _ _ hl
          refine ⟨[], t, by simp [hc, h1], rfl, by simp, count_lf_of_no_terminator t h2,
            Or.inl ⟨rfl, ?_, h2⟩, by simp⟩
          intro ht
          subst ht
          rw [TokenScanner.scan_unquoted_loop] at hl
          split_ifs at hl with hterm
          · unfold is_blank at hb
            rcases hterm with h | h | h | h | h | h | h | h | h
            · exact hb (Or.inl h)
            · exact hb (Or.inr (Or.inl h))
            · exact hb (Or.inr (Or.inr h))
            · exact hn h
            · exact he h
            · exact hq1 h
            · exact hq2 h
            · exact hcm (Or.inl h)
            · exact hcm (Or.inr h)
          · cases hl2 : TokenScanner.scan_unquoted_loop sc.line_no rest with
            | error e => simp [hl2] at hl
            | ok p2 => simp [hl2] at hl

theorem next_scanned (sc : TokenScanner) (tok : Token) (sc2 : TokenScanner)
    (h : sc.next = Except.ok (tok, sc2)) : ∃ skipped chars, scanned sc sc2 tok skipped chars :=
  next_loop_scanned _ sc tok sc2 h

theorem scanner_at_scanned (source : List Char) (sc sc2 : TokenScanner) (tok : Token)
    (pre skipped chars : List Char) (hat : scanner_at source sc pre)
    (h : scanned sc sc2 tok skipped chars) :
    source = (pre ++ skipped) ++ chars ++ sc2.cur ∧
      sc2.line_no = 1 + (pre ++ skipped).count '\n' ∧
      scanner_at source sc2 ((pre ++ skipped) ++ chars) := by
  obtain ⟨a1, a2, a3⟩ := hat
  obtain ⟨g1, g2, g3, g4, _, _⟩ := h
  have e1 : source = (pre ++ skipped) ++ chars ++ sc2.cur := by
    rw [a2, g1]
    simp
  have e2 : sc2.line_no = 1 + (pre ++ skipped).count '\n' := by
    rw [g3, a3, List.count_append]
    omega
  refine ⟨e1, e2, by rw [g2, a1], e1, ?_⟩
  have e3 := List.count_append '\n' (pre ++ skipped) chars
  omega

/-! ## Malformed properties and stray tokens -/

theorem not_mem_of_count_zero (chars : List Char) (h : chars.count '\n' = 0) :
    ∀ c ∈ chars, c ≠ '\n' := by
  intro c hc hn
  rw [hn] at hc
  exact (List.count_eq_zero.mp h) hc

theorem parse_property_missing_equal (sc sc1 : TokenScanner) (res : IniResult)
    (it : SectionIter) (tok : Token) (h1 : sc.next = Except.ok (tok, sc1))
    (htok : tok ≠ Token.equal) :
    parse_property sc res it =
      Except.error (IniParseError "expected equal after parameter name" sc1.line_no) := by
  unfold parse_property
  simp [h1, htok, TokenScanner.line_index]

theorem parse_property_missing_value (sc sc1 sc2 : TokenScanner) (res : IniResult)
    (it : SectionIter) (tok : Token) (h1 : sc.next = Except.ok (Token.equal, sc1))
    (h2 : sc1.next = Except.ok (tok, sc2)) (htok : tok ≠ Token.text) :
    parse_property sc res it =
      Except.error (IniParseError "expected parameter value" sc2.line_no) := by
  unfold parse_property
  simp [h1, h2, htok, TokenScanner.line_index]

theorem parse_iteration_stray (st : ParseState) (sc1 : TokenScanner) (tok : Token)
    (h1 : st.scanner.next = Except.ok (tok, sc1))
    (htok : tok = Token.closed_square_brace ∨ tok = Token.equal) :
    parse_iteration st =
      Except.error (IniParseError "expected section or parameter" sc1.line_no) := by
  unfold parse_iteration
  rcases htok with htok | htok <;> subst htok <;> simp [h1, TokenScanner.line_index]

/-- C16: with the key in `text_view()` and the cursor behind the text `pre` of `source`:
when the next token is not `=`, `parse_property` throws
`expected equal after parameter name at line N`; when it is `=` and the token after it is
not a text, it throws `expected parameter value at line N`.  In both cases the offending
token stands in `source` as `chars` (empty for `end`, which is reached at the end of the
input) behind the text `before`, has no line feed in it, and `N` is one more than the
number of line feeds of `before`.  As `parse_property` throws, no document with the key
comes back. -/
theorem malformed_property_rejected (source pre : List Char) (sc : TokenScanner)
    (res : IniResult) (it : SectionIter) (hat : scanner_at source sc pre) :
    (∀ tok sc1, sc.next = Except.ok (tok, sc1) → tok ≠ Token.equal →
      ∃ before chars, source = before ++ chars ++ sc1.cur ∧
        token_chars tok sc1.text_view chars ∧ (∀ c ∈ chars, c ≠ '\n') ∧
        (tok = Token.end_ → before = source) ∧
        parse_property sc res it = Except.error (Fault.thrown (format_error_info
          "expected equal after parameter name" (1 + before.count '\n')))) ∧
    (∀ sc1 tok sc2, sc.next = Except.ok (Token.equal, sc1) →
      sc1.next = Except.ok (tok, sc2) → tok ≠ Token.text →
      ∃ before chars, source = before ++ chars ++ sc2.cur ∧
        token_chars tok sc2.text_view chars ∧ (∀ c ∈ chars, c ≠ '\n') ∧
        (tok = Token.end_ → before = source) ∧
        parse_property sc res it = Except.error (Fault.thrown (format_error_info
          "expected parameter value" (1 + before.count '\n')))) := by
  constructor
  · intro tok sc1 h1 htok
    obtain ⟨skipped, chars, hs⟩ := next_scanned sc tok sc1 h1
    obtain ⟨e1, e2, _⟩ := scanner_at_scanned source sc sc1 tok pre skipped chars hat hs
    refine ⟨pre ++ skipped, chars, e1, hs.2.2.2.2.1, not_mem_of_count_zero chars hs.2.2.2.1,
      ?_, ?_⟩
    · intro hend
      have hc : sc1.cur = [] := hs.2.2.2.2.2 hend
      have hch : chars = [] := by
        have := hs.2.2.2.2.1
        rw [hend] at this
        exact this
      rw [e1, hc, hch]
      simp
    · rw [parse_property_missing_equal sc sc1 res it tok h1 htok, e2]
      rfl
  · intro sc1 tok sc2 h1 h2 htok
    obtain ⟨sk1, ch1, hs1⟩ := next_scanned sc Token.equal sc1 h1
    obtain ⟨_, _, hat1⟩ := scanner_at_scanned source sc sc1 _ pre sk1 ch1 hat hs1
    obtain ⟨skipped, chars, hs⟩ := next_scanned sc1 tok sc2 h2
    obtain ⟨e1, e2, _⟩ := scanner_at_scanned source sc1 sc2 tok _ skipped chars hat1 hs
    refine ⟨(pre ++ sk1 ++ ch1) ++ skipped, chars, e1, hs.2.2.2.2.1,
      not_mem_of_count_zero chars hs.2.2.2.1, ?_, ?_⟩
    · intro hend
      have hc : sc2.cur = [] := hs.2.2.2.2.2 hend
      have hch : chars = [] := by
        have := hs.2.2.2.2.1
        rw [hend] at this
        exact this
      rw [e1, hc, hch]
      simp
    · rw [parse_property_missing_value sc sc1 sc2 res it tok h1 h2 htok, e2]
      rfl

/-- Witness of C16: behind the key `k` of line 1 the next token is the text `v` on line 3;
behind `k =` the next token is `end`, reached on line 2. -/
theorem malformed_property_rejected_witness :
    scanner_at "k\n\n v = 1".toList
      { source := "k\n\n v = 1".toList, cur := "\n\n v = 1".toList, line_no := 1,
        text := "k".toList } "k".toList ∧
    (∃ before chars, "k\n\n v = 1".toList = before ++ chars ++ " = 1".toList ∧
      token_chars Token.text "v".toList chars ∧ (∀ c ∈ chars, c ≠ '\n') ∧
      (Token.text = Token.end_ → before = "k\n\n v = 1".toList) ∧
      parse_property
        { source := "k\n\n v = 1".toList, cur := "\n\n v = 1".toList, line_no := 1,
          text := "k".toList } (IniResult.create "k\n\n v = 1".toList) none =
        Except.error (Fault.thrown (format_error_info
          "expected equal after parameter name" (1 + before.count '\n')))) ∧
    parse_property
        { source := "k\n\n v = 1".toList, cur := "\n\n v = 1".toList, line_no := 1,
          text := "k".toList } (IniResult.create "k\n\n v = 1".toList) none =
      Except.error (Fault.thrown "expected equal after parameter name at line 3") ∧
    parse_property
        { source := "k = \n".toList, cur := " = \n".toList, line_no := 1,
          text := "k".toList } (IniResult.create "k = \n".toList) none =
      Except.error (Fault.thrown "expected parameter value at line 2") :=
  ⟨⟨rfl, rfl, rfl⟩,
   (malformed_property_rejected "k\n\n v = 1".toList "k".toList
      { source := "k\n\n v = 1".toList, cur := "\n\n v = 1".toList, line_no := 1,
        text := "k".toList } (IniResult.create "k\n\n v = 1".toList) none ⟨rfl, rfl, rfl⟩).1
      Token.text
      { source := "k\n\n v = 1".toList, cur := " = 1".toList, line_no := 3,
        text := "v".toList } (by decide) (by decide),
   by decide, by decide⟩

/-- C17: when `n` iterations of the loop of `parse_str` have run without error and the
next token is `]` or `=`, `parse_str` throws `expected section or parameter at line N`,
where `N` is one more than the number of line feeds in the text `pre` in front of that
character. -/
theorem stray_token_rejected (cs : Bool) (source : List Char) (n : Nat) (st : ParseState)
    (tok : Token) (sc1 : TokenScanner)
    (hreach : parse_iterations n (parse_start cs source) = Except.ok (some st))
    (h1 : st.scanner.next = Except.ok (tok, sc1))
    (htok : tok = Token.closed_square_brace ∨ tok = Token.equal) :
    ∃ pre c, (tok = Token.closed_square_brace → c = ']') ∧ (tok = Token.equal → c = '=') ∧
      source = pre ++ c :: sc1.cur ∧
      parse_str cs source = Except.error (Fault.thrown (format_error_info
        "expected section or parameter" (1 + pre.count '\n'))) := by
  obtain ⟨pre0, hat0⟩ := scanner_at_iterations source n _ st
    (scanner_at_start cs source).choose hreach (scanner_at_start cs source).choose_spec
  obtain ⟨skipped, chars, hs⟩ := next_scanned _ tok sc1 h1
  obtain ⟨e1, e2, _⟩ := scanner_at_scanned source _ sc1 tok pre0 skipped chars hat0 hs
  have hparse : parse_str cs source = Except.error (Fault.thrown (format_error_info
      "expected section or parameter" (1 + (pre0 ++ skipped).count '\n'))) := by
    rw [parse_str_of_iterations cs source n st hreach, parse_loop,
      parse_iteration_stray st sc1 tok h1 htok, e2]
    rfl
  have htc := hs.2.2.2.2.1
  rcases htok with htok | htok
  · subst htok
    have hch : chars = [']'] := htc
    refine ⟨pre0 ++ skipped, ']', fun _ => rfl, fun h => Token.noConfusion h, ?_, hparse⟩
    rw [e1, hch]
    simp
  · subst htok
    have hch : chars = ['='] := htc
    refine ⟨pre0 ++ skipped, '=', fun h => Token.noConfusion h, fun _ => rfl, ?_, hparse⟩
    rw [e1, hch]
    simp

/-- Witness of C17: a `]` at the start of line 2, and a `=` on line 3 behind a header. -/
theorem stray_token_rejected_witness :
    (∃ pre c, (Token.closed_square_brace = Token.closed_square_brace → c = ']') ∧
      (Token.closed_square_brace = Token.equal → c = '=') ∧
      "\n] x".toList = pre ++ c :: " x".toList ∧
      parse_str true "\n] x".toList = Except.error (Fault.thrown (format_error_info
        "expected section or parameter" (1 + pre.count '\n')))) ∧
    (∃ pre c, (Token.equal = Token.closed_square_brace → c = ']') ∧
      (Token.equal = Token.equal → c = '=') ∧
      "[\"a\"]\n\n = 1".toList = pre ++ c :: " 1".toList ∧
      parse_str false "[\"a\"]\n\n = 1".toList = Except.error (Fault.thrown
        (format_error_info "expected section or parameter" (1 + pre.count '\n')))) ∧
    parse_str true "\n] x".toList =
      Except.error (Fault.thrown "expected section or parameter at line 2") ∧
    parse_str false "[\"a\"]\n\n = 1".toList =
      Except.error (Fault.thrown "expected section or parameter at line 3") :=
  ⟨stray_token_rejected true "\n] x".toList 0 (parse_start true "\n] x".toList)
      Token.closed_square_brace
      { source := "\n] x".toList, cur := " x".toList, line_no := 2, text := [] }
      (by decide) (by decide) (Or.inl rfl),
   stray_token_rejected false "[\"a\"]\n\n = 1".toList 1
      { scanner := { source := "[\"a\"]\n\n = 1".toList, cur := "\n\n = 1".toList,
                     line_no := 1, text := "a".toList },
        result := { raw_content := "[\"a\"]\n\n = 1".toList,
                    parsed_data := [("a".toList, [])] },
        section_iter := some "a".toList }
      Token.equal
      { source := "[\"a\"]\n\n = 1".toList, cur := " 1".toList, line_no := 3,
        text := "a".toList }
      (by decide) (by decide) (Or.inr rfl),
   by decide, by decide⟩

/-! ## The line number along a run of the scanner -/

theorem scanner_at_next_times (source : List Char) (n : Nat) :
    ∀ (sc sc2 : TokenScanner) (pre : List Char), scanner_at source sc pre →
      next_times n sc = Except.ok sc2 → ∃ pre2, scanner_at source sc2 pre2 := by
  induction n with
  | zero =>
    intro sc sc2 pre hat h
    simp only [next_times, Except.ok.injEq] at h
    subst h
    exact ⟨pre, hat⟩
  | succ n ih =>
    intro sc sc2 pre hat h
    rw [next_times] at h
    cases h1 : sc.next with
    | error e => simp [h1] at h
    | ok p =>
      obtain ⟨tok, sc1⟩ := p
      simp only [h1] at h
      obtain ⟨mid, hc, _⟩ := next_spec sc tok sc1 h1
      exact ih sc1 sc2 _ (scanner_at_consumed source sc sc1 pre mid hat hc) h

theorem text_without_line_feed (text chars : List Char)
    (h : token_chars Token.text text chars) : ∀ c ∈ text, c ≠ '\n' := by
  intro c hc hn
  rcases h with ⟨_, _, h⟩ | ⟨q, _, _, h⟩
  · exact h c hc (by rw [hn]; unfold is_terminator; simp)
  · exact (h c hc).2 hn

/-- C18: after construction, and after any number of calls of `next` that returned a
token, `line_index()` is one more than the number of line feeds in the text `pre` in front
of the cursor; one call of `next` raises the line number by exactly the number of line
feeds it moved the cursor over, so no other character changes it; and the text of a
`text` token has no line feed. -/
theorem line_index_counts_line_feeds :
    (∀ (cs : Bool) (source : List Char),
      ∃ pre, source = pre ++ (TokenScanner.create cs source).cur ∧
        (TokenScanner.create cs source).line_index = 1 + pre.count '\n') ∧
    (∀ (cs : Bool) (source : List Char) (n : Nat) (sc : TokenScanner),
      next_times n (TokenScanner.create cs source) = Except.ok sc →
      ∃ pre, source = pre ++ sc.cur ∧ sc.line_index = 1 + pre.count '\n') ∧
    (∀ (sc : TokenScanner) (tok : Token) (sc2 : TokenScanner),
      sc.next = Except.ok (tok, sc2) →
      ∃ mid, sc.cur = mid ++ sc2.cur ∧ sc2.line_index = sc.line_index + mid.count '\n') ∧
    (∀ (sc sc2 : TokenScanner), sc.next = Except.ok (Token.text, sc2) →
      ∀ c ∈ sc2.text_view, c ≠ '\n') := by
  refine ⟨?_, ?_, ?_, ?_⟩
  · intro cs source
    obtain ⟨pre, _, h2, h3⟩ := scanner_at_start cs source
    exact ⟨pre, h2, h3⟩
  · intro cs source n sc h
    obtain ⟨pre, hat⟩ := scanner_at_start cs source
    obtain ⟨pre2, _, h2, h3⟩ := scanner_at_next_times source n _ sc pre hat h
    exact ⟨pre2, h2, h3⟩
  · intro sc tok sc2 h
    obtain ⟨mid, ⟨h1, h2, _⟩, _⟩ := next_spec sc tok sc2 h
    exact ⟨mid, h1, h2⟩
  · intro sc sc2 h
    obtain ⟨skipped, chars, hs⟩ := next_scanned sc Token.text sc2 h
    exact text_without_line_feed sc2.text chars hs.2.2.2.2.1

/-! ## An unquoted word in a header -/

/-- C20: on `[w]\n` with an unquoted word `w` the tokens are `[`, the text `w]` and `end`
(no `]` token), and `parse_str` throws
`invalid section name: missing close square brace at line 1`, so that no document and no
section come back. -/
theorem unquoted_word_absorbs_close (cs : Bool) (w : List Char) (hw : is_word w) :
    ∃ sc1 sc2 sc3,
      (TokenScanner.create cs ('[' :: (w ++ [']', '\n']))).next =
        Except.ok (Token.opened_square_brace, sc1) ∧
      sc1.next = Except.ok (Token.text, sc2) ∧ sc2.text_view = w ++ [']'] ∧
      sc2.next = Except.ok (Token.end_, sc3) ∧
      parse_str cs ('[' :: (w ++ [']', '\n'])) = Except.error
        (Fault.thrown "invalid section name: missing close square brace at line 1") := by
  have hstart := create_of_head cs '[' (w ++ [']', '\n']) (by cases cs <;> decide)
  have h1 : (TokenScanner.create cs ('[' :: (w ++ [']', '\n']))).next =
      Except.ok (Token.opened_square_brace,
        { source := '[' :: (w ++ [']', '\n']), cur := w ++ [']', '\n'], line_no := 1,
          text := [] }) := by
    rw [hstart]
    exact next_open _ _ rfl
  have h2 : TokenScanner.next
        { source := '[' :: (w ++ [']', '\n']), cur := w ++ [']', '\n'], line_no := 1,
          text := [] } =
      Except.ok (Token.text,
        { source := '[' :: (w ++ [']', '\n']), cur := ['\n'], line_no := 1,
          text := w ++ [']'] }) :=
    next_word _ (w ++ [']']) '\n' [] (is_word_append_close w hw) (by decide) (by simp)
  have h3 : TokenScanner.next
        { source := '[' :: (w ++ [']', '\n']), cur := ['\n'], line_no := 1,
          text := w ++ [']'] } =
      Except.ok (Token.end_,
        { source := '[' :: (w ++ [']', '\n']), cur := [], line_no := 2,
          text := w ++ [']'] }) := by
    rw [next_line_feed _ [] rfl]
    exact next_nil _ rfl
  refine ⟨_, _, _, h1, h2, rfl, h3, ?_⟩
  unfold parse_str
  rw [parse_loop]
  have hit := parse_iteration_missing_close
    (parse_start cs ('[' :: (w ++ [']', '\n']))) _ _ _ Token.end_ h1 h2 h3 (by decide)
  rw [hit]
  show (Except.error (IniParseError "invalid section name: missing close square brace" 1) :
    Except Fault IniResult) = _
  decide

/-- Witness of C20 on the header `[section1]` of `test.cpp`. -/
theorem unquoted_word_absorbs_close_witness :
    is_word "section1".toList ∧
    ∃ sc1 sc2 sc3,
      (TokenScanner.create true ('[' :: ("section1".toList ++ [']', '\n']))).next =
        Except.ok (Token.opened_square_brace, sc1) ∧
      sc1.next = Except.ok (Token.text, sc2) ∧
      sc2.text_view = "section1".toList ++ [']'] ∧
      sc2.next = Except.ok (Token.end_, sc3) ∧
      parse_str true ('[' :: ("section1".toList ++ [']', '\n'])) = Except.error
        (Fault.thrown "invalid section name: missing close square brace at line 1") :=
  ⟨by decide, unquoted_word_absorbs_close true "section1".toList (by decide)⟩

/-! ## The cursor never rewinds -/

theorem scan_quoted_cursor_suffix (q : Char) (l : List Char) :
    ∃ mid, l = mid ++ TokenScanner.scan_quoted_cursor q l := by
  induction l with
  | nil => exact ⟨[], rfl⟩
  | cons c l ih =>
    rw [TokenScanner.scan_quoted_cursor]
    split_ifs with hn hq
    · exact ⟨[], rfl⟩
    · exact ⟨[c], rfl⟩
    · obtain ⟨mid, h⟩ := ih
      exact ⟨c :: mid, by rw [List.cons_append, ← h]⟩

theorem scan_unquoted_cursor_suffix (l : List Char) :
    ∃ mid, l = mid ++ TokenScanner.scan_unquoted_cursor l := by
  induction l with
  | nil => exact ⟨[], rfl⟩
  | cons c l ih =>
    rw [TokenScanner.scan_unquoted_cursor]
    split_ifs with hterm
    · exact ⟨[], rfl⟩
    · obtain ⟨mid, h⟩ := ih
      exact ⟨c :: mid, by rw [List.cons_append, ← h]⟩

theorem scan_quoted_cursor_ok (q : Char) (n : Nat) (l t r : List Char)
    (h : TokenScanner.scan_quoted_loop q n l = Except.ok (t, r)) :
    TokenScanner.scan_quoted_cursor q l = r := by
  induction l generalizing t with
  | nil => simp [TokenScanner.scan_quoted_loop] at h
  | cons c l ih =>
    rw [TokenScanner.scan_quoted_loop] at h
    rw [TokenScanner.scan_quoted_cursor]
    split_ifs at h ⊢ with hn hq
    · simp only [Except.ok.injEq, Prod.mk.injEq] at h
      exact h.2
    · cases hl : TokenScanner.scan_quoted_loop q n l with
      | error e => simp [hl] at h
      | ok p =>
        obtain ⟨t2, r2⟩ := p
        simp only [hl, Except.ok.injEq, Prod.mk.injEq] at h
        obtain ⟨_, hr⟩ := h
        subst hr
        exact ih t2 hl

theorem scan_unquoted_cursor_ok (n : Nat) (l t r : List Char)
    (h : TokenScanner.scan_unquoted_loop n l = Except.ok (t, r)) :
    TokenScanner.scan_unquoted_cursor l = r := by
  induction l generalizing t with
  | nil => simp [TokenScanner.scan_unquoted_loop] at h
  | cons c l ih =>
    rw [TokenScanner.scan_unquoted_loop] at h
    rw [TokenScanner.scan_unquoted_cursor]
    split_ifs at h ⊢ with hterm
    · simp only [Except.ok.injEq, Prod.mk.injEq] at h
      exact h.2
    · cases hl : TokenScanner.scan_unquoted_loop n l with
      | error e => simp [hl] at h
      | ok p =>
        obtain ⟨t2, r2⟩ := p
        simp only [hl, Except.ok.injEq, Prod.mk.injEq] at h
        obtain ⟨_, hr⟩ := h
        subst hr
        exact ih t2 hl

theorem skip_comment_suffix (sc : TokenScanner) (c : Char) (rest : List Char)
    (h : sc.cur = c :: rest) : ∃ mid, rest = mid ++ sc.skip_comment.cur := by
  obtain ⟨mid, h1, _⟩ := skip_comment_loop_spec rest sc.line_no
  refine ⟨mid, ?_⟩
  simp only [TokenScanner.skip_comment, h, List.drop_succ_cons, List.drop_zero]
  exact h1

theorem next_cursor_loop_suffix (fuel : Nat) :
    ∀ sc : TokenScanner, ∃ mid, sc.cur = mid ++ TokenScanner.next_cursor_loop fuel sc := by
  induction fuel with
  | zero => intro sc; exact ⟨[], rfl⟩
  | succ fuel ih =>
    intro sc
    rw [TokenScanner.next_cursor_loop]
    cases hc : sc.cur with
    | nil => exact ⟨[], rfl⟩
    | cons c rest =>
      simp only
      split_ifs with hb hn hcm ho hcl he hq1 hq2
      · obtain ⟨mid, h⟩ := ih { sc with cur := rest }
        exact ⟨c :: mid, by rw [List.cons_append, ← h]⟩
      · obtain ⟨mid, h⟩ := ih { sc with cur := rest, line_no := sc.line_no + 1 }
        exact ⟨c :: mid, by rw [List.cons_append, ← h]⟩
      · obtain ⟨mid, h⟩ := ih sc.skip_comment
        obtain ⟨m2, h2⟩ := skip_comment_suffix sc c rest hc
        exact ⟨c :: (m2 ++ mid), by rw [List.cons_append, List.append_assoc, ← h, ← h2]⟩
      · exact ⟨[c], rfl⟩
      · exact ⟨[c], rfl⟩
      · exact ⟨[c], rfl⟩
      · obtain ⟨mid, h⟩ := scan_quoted_cursor_suffix '"' rest
        exact ⟨c :: mid, by rw [List.cons_append, ← h]⟩
      · obtain ⟨mid, h⟩ := scan_quoted_cursor_suffix '\'' rest
        exact ⟨c :: mid, by rw [List.cons_append, ← h]⟩
      · obtain ⟨mid, h⟩ := scan_unquoted_cursor_suffix (c :: rest)
        exact ⟨mid, h⟩

theorem next_cursor_loop_strict (fuel : Nat) (sc : TokenScanner) (c : Char)
    (rest : List Char) (hc : sc.cur = c :: rest) :
    ∃ mid, rest = mid ++ TokenScanner.next_cursor_loop (fuel + 1) sc := by
  rw [TokenScanner.next_cursor_loop]
  simp only [hc]
  split_ifs with hb hn hcm ho hcl he hq1 hq2
  · exact next_cursor_loop_suffix fuel { sc with cur := rest }
  · exact next_cursor_loop_suffix fuel { sc with cur := rest, line_no := sc.line_no + 1 }
  · obtain ⟨mid, h⟩ := next_cursor_loop_suffix fuel sc.skip_comment
    obtain ⟨m2, h2⟩ := skip_comment_suffix sc c rest hc
    exact ⟨m2 ++ mid, by rw [List.append_assoc, ← h, ← h2]⟩
  · exact ⟨[], rfl⟩
  · exact ⟨[], rfl⟩
  · exact ⟨[], rfl⟩
  · exact scan_quoted_cursor_suffix '"' rest
  · exact scan_quoted_cursor_suffix '\'' rest
  · have hterm : ¬ (c = ' ' ∨ c = '\t' ∨ c = '\r' ∨ c = '\n' ∨ c = '=' ∨ c = '"' ∨
        c = '\'' ∨ c = '#' ∨ c = ';') := by
      intro h
      rcases h with h | h | h | h | h | h | h | h | h
      · exact hb (Or.inl h)
      · exact hb (Or.inr (Or.inl h))
      · exact hb (Or.inr (Or.inr h))
      · exact hn h
      · exact he h
      · exact hq1 h
      · exact hq2 h
      · exact hcm (Or.inl h)
      · exact hcm (Or.inr h)
    rw [TokenScanner.scan_unquoted_cursor, if_neg hterm]
    exact scan_unquoted_cursor_suffix rest

theorem next_cursor_loop_ok (fuel : Nat) :
    ∀ (sc : TokenScanner) (tok : Token) (sc2 : TokenScanner),
      TokenScanner.next_loop fuel sc = Except.ok (tok, sc2) →
      TokenScanner.next_cursor_loop fuel sc = sc2.cur := by
  induction fuel with
  | zero =>
    intro sc tok sc2 h
    simp [TokenScanner.next_loop] at h
  | succ fuel ih =>
    intro sc tok sc2 h
    rw [TokenScanner.next_loop] at h
    rw [TokenScanner.next_cursor_loop]
    cases hc : sc.cur with
    | nil =>
      simp only [hc, Except.ok.injEq, Prod.mk.injEq] at h
      rw [← h.2, hc]
    | cons c rest =>
      simp only [hc] at h ⊢
      split_ifs at h ⊢ with hb hn hcm ho hcl he hq1 hq2
      · exact ih _ _ _ h
      · exact ih _ _ _ h
      · exact ih _ _ _ h
      · simp only [Except.ok.injEq, Prod.mk.injEq] at h
        rw [← h.2]
      · simp only [Except.ok.injEq, Prod.mk.injEq] at h
        rw [← h.2]
      · simp only [Except.ok.injEq, Prod.mk.injEq] at h
        rw [← h.2]
      · unfold TokenScanner.scan_quoted_string at h
        simp only [hc, List.drop_succ_cons, List.drop_zero] at h
        cases hl : TokenScanner.scan_quoted_loop '"' sc.line_no rest with
        | error e => simp [hl] at h
        | ok p =>
          obtain ⟨t, r⟩ := p
          simp only [hl, Except.ok.injEq, Prod.mk.injEq] at h
          rw [← h.2]
          exact scan_quoted_cursor_ok _ _ _ _ _ hl
      · unfold TokenScanner.scan_quoted_string at h
        simp only [hc, List.drop_succ_cons, List.drop_zero] at h
        cases hl : TokenScanner.scan_quoted_loop '\'' sc.line_no rest with
        | error e => simp [hl] at h
        | ok p =>
          obtain ⟨t, r⟩ := p
          simp only [hl, Except.ok.injEq, Prod.mk.injEq] at h
          rw [← h.2]
          exact scan_quoted_cursor_ok _ _ _ _ _ hl
      · unfold TokenScanner.scan_unquoted_word at h
        simp only [hc] at h
        cases hl : TokenScanner.scan_unquoted_loop sc.line_no (c :: rest) with
        | error e => simp [hl] at h
        | ok p =>
          obtain ⟨t, r⟩ := p
          simp only [hl, Except.ok.injEq, Prod.mk.injEq] at h
          rw [← h.2]
          exact scan_unquoted_cursor_ok _ _ _ _ hl

/-- C19, as far as the code has it, and evaluated where it fails.  A call of `next`
returns or throws (its fuel is never exhausted); when it returns, the cursor is
`next_cursor`, and after `end` it is at the end of the input; on an empty remaining input
it returns `end`; on a remaining input `c :: rest` the cursor, at the return or at the
throw, is a part of `rest` that reaches to its end, so it moved forward by at least one
character and not past the end; the characters of an unquoted text token are its text,
which is non-empty.  The loop of `parse_str` ends on every input: with a document, with
a thrown `IniParseError`, or in `insert` through the end iterator, which is what
happens on `k = v\n` and is neither a document nor an error of the parser. -/
theorem scanner_makes_progress :
    (∀ sc : TokenScanner, sc.next ≠ Except.error Fault.out_of_fuel) ∧
    (∀ (sc : TokenScanner) (tok : Token) (sc2 : TokenScanner),
      sc.next = Except.ok (tok, sc2) →
      sc2.cur = sc.next_cursor ∧ (tok = Token.end_ → sc2.cur = [])) ∧
    (∀ sc : TokenScanner, sc.cur = [] → sc.next = Except.ok (Token.end_, sc)) ∧
    (∀ (sc : TokenScanner) (c : Char) (rest : List Char), sc.cur = c :: rest →
      ∃ mid, rest = mid ++ sc.next_cursor) ∧
    (∀ (sc sc2 : TokenScanner), sc.next = Except.ok (Token.text, sc2) →
      ∃ skipped chars, sc.cur = skipped ++ (chars ++ sc2.cur) ∧
        ((chars = sc2.text_view ∧ sc2.text_view ≠ []) ∨
         (∃ q, (q = '"' ∨ q = '\'') ∧ chars = q :: (sc2.text_view ++ [q])))) ∧
    (∀ (cs : Bool) (source : List Char),
      (∃ r, parse_str cs source = Except.ok r) ∨
      (∃ what, parse_str cs source = Except.error (Fault.thrown what)) ∨
      parse_str cs source = Except.error Fault.undefined_behaviour) ∧
    (∀ cs, parse_str cs "k = v\n".toList = Except.error Fault.undefined_behaviour) := by
  refine ⟨next_fuel_suffices, ?_, next_nil, ?_, ?_, ?_, by decide⟩
  · intro sc tok sc2 h
    refine ⟨(next_cursor_loop_ok _ sc tok sc2 h).symm, ?_⟩
    obtain ⟨_, _, hs⟩ := next_scanned sc tok sc2 h
    exact hs.2.2.2.2.2
  · intro sc c rest hc
    unfold TokenScanner.next_cursor
    exact next_cursor_loop_strict _ sc c rest hc
  · intro sc sc2 h
    obtain ⟨skipped, chars, hs⟩ := next_scanned sc Token.text sc2 h
    refine ⟨skipped, chars, hs.1, ?_⟩
    rcases hs.2.2.2.2.1 with ⟨h1, h2, _⟩ | ⟨q, hq, h1, _⟩
    · exact Or.inl ⟨h1, h2⟩
    · exact Or.inr ⟨q, hq, h1⟩
  · intro cs source
    cases h : parse_str cs source with
    | ok r => exact Or.inl ⟨r, rfl⟩
    | error e =>
      cases e with
      | thrown what => exact Or.inr (Or.inl ⟨what, rfl⟩)
      | undefined_behaviour => exact Or.inr (Or.inr rfl)
      | out_of_fuel => exact absurd h (parse_str_fuel_suffices cs source)

end Ini
